import Mathlib

/-!
Verification development for the `minimax_strategy` library: a generic
two-player zero-sum alpha-beta minimax search engine.

The embedding translates `src/lib.rs` and `src/node.rs` into Lean:
a `Game` bundles the `Rule` and `Evaluator` trait implementations together
with the `Bounded` payoff sentinels; `TreeNode` is the one-child search tree
node of `node.rs` flattened together with `MinimaxNode` of `lib.rs`
(fields: state, cause_action, payoff, child); the recursive search
`construct_best_game_tree_alpha_beta` and the entry point `select_action`
follow the Rust code statement by statement.  The generic depth parameter
`N: Copy + Integer` is instantiated with `Nat` (the decrement-and-test-zero
discipline of the source).  In the Rust function the returned
`Option<E::Payoff>` always equals the `payoff` field of the node it worked
on (the leaf path returns the payoff it just stored, the main path returns
`current_node.payoff`), so the Lean translation returns the updated node and
the callers read its `payoff` field.
-/

/-- The two players (enum `Actor` of `lib.rs`). -/
inductive Actor : Type where
  | First : Actor
  | Second : Actor
deriving DecidableEq, Repr

/-- `Actor::opponent` of `lib.rs`. -/
def Actor.opponent : Actor → Actor
  | Actor.First => Actor.Second
  | Actor.Second => Actor.First

/-- Modelled from the spec: the window type `Range` comes from the external
`data_structure` crate, which is not under `src/`.  Per spec section 4.1 it is
a pair `(lo, hi)` with invariant `lo <= hi`. -/
structure Range (P : Type) : Type where
  min : P
  max : P
deriving DecidableEq, Repr

/-- Modelled from the spec: `Range::try_new(lo, hi)` of the external
`data_structure` crate yields a valid window only if `lo <= hi`, else the
empty signal (spec section 4.1); emptiness is the alpha-beta cutoff trigger. -/
def Range.try_new {P : Type} [LinearOrder P] (lo hi : P) : Option (Range P) :=
  if lo ≤ hi then some ⟨lo, hi⟩ else none

/-- A game: the `Rule` and `Evaluator` trait implementations of `lib.rs`
bundled with the `Bounded` sentinels of the payoff type.  `actor_of` is
`Action::actor`. -/
structure Game (S A P : Type) : Type where
  actor_of : A → Actor
  is_game_over : S → Bool
  iterate_available_actions : S → Actor → List A
  translate_state : S → A → S
  evaluate_payoff_for : Actor → S → P
  min_value : P
  max_value : P

/-- The search tree node: `TreeNode<MinimaxNode<S, A, P>>` of `node.rs` /
`lib.rs` flattened (item fields `state`, `cause_action`, `payoff`; the at most
one `child`). -/
inductive TreeNode (S A P : Type) : Type where
  | mk : S → Option A → Option P → Option (TreeNode S A P) → TreeNode S A P

namespace TreeNode

variable {S A P : Type}

/-- The `state` field of the node's `MinimaxNode`. -/
def state : TreeNode S A P → S
  | TreeNode.mk s _ _ _ => s

/-- The `cause_action` field of the node's `MinimaxNode`. -/
def cause_action : TreeNode S A P → Option A
  | TreeNode.mk _ c _ _ => c

/-- The `payoff` field of the node's `MinimaxNode`. -/
def payoff : TreeNode S A P → Option P
  | TreeNode.mk _ _ p _ => p

/-- The `child` field of `TreeNode` (`into_child` reads it). -/
def child : TreeNode S A P → Option (TreeNode S A P)
  | TreeNode.mk _ _ _ c => c

end TreeNode

variable {S A P : Type}

/-- Who will act on the current state: `match current_node.cause_action { Some(action)
=> action.actor().opponent(), None => consideration_target }` in `lib.rs`. -/
def nextActorOf (g : Game S A P) (consideration_target : Actor) : Option A → Actor
  | some a => (g.actor_of a).opponent
  | none => consideration_target

/-- The leaf branch of `construct_best_game_tree_alpha_beta`: store the static
evaluation for the searching actor in the node's payoff (lines 112-116 of
`lib.rs`). -/
def leafEval [LinearOrder P] (g : Game S A P) (consideration_target : Actor)
    (node : TreeNode S A P) : TreeNode S A P :=
  TreeNode.mk node.state node.cause_action
    (some (g.evaluate_payoff_for consideration_target node.state)) node.child

/-- The `for` loop of `construct_best_game_tree_alpha_beta` (lines 134-184 of
`lib.rs`): for each available action, build a child node, recurse (`recurse` is
the recursive call at `remaining_depth - 1`), skip `None` children (`continue`),
skip children not strictly preferred (`continue`), otherwise `replace_child`,
store the child's payoff, and narrow the window with `Range::try_new`,
stopping the enumeration (`break`) when the window empties. -/
def abLoop [LinearOrder P] (g : Game S A P)
    (recurse : TreeNode S A P → Range P → TreeNode S A P)
    (next_actor consideration_target : Actor) :
    TreeNode S A P → Range P → List A → TreeNode S A P
  | node, _, [] => node
  | node, range, a :: rest =>
    let child := recurse
      (TreeNode.mk (g.translate_state node.state a) (some a) none none) range
    match child.payoff with
    | none => abLoop g recurse next_actor consideration_target node range rest
    | some child_payoff =>
      let skip : Bool :=
        match node.payoff with
        | some e =>
          if next_actor = consideration_target then decide (child_payoff ≤ e)
          else decide (e ≤ child_payoff)
        | none => false
      if skip then abLoop g recurse next_actor consideration_target node range rest
      else
        let node' := TreeNode.mk node.state node.cause_action (some child_payoff)
          (some child)
        match (if next_actor = consideration_target then
                 Range.try_new child_payoff range.max
               else Range.try_new range.min child_payoff) with
        | some r => abLoop g recurse next_actor consideration_target node' r rest
        | none => node'

/-- `AlphaBetaStrategy::construct_best_game_tree_alpha_beta` of `lib.rs`
(lines 101-191), returning the updated node (whose `payoff` field is the
function's Rust return value). -/
def construct_best_game_tree_alpha_beta [LinearOrder P] (g : Game S A P)
    (consideration_target : Actor) :
    Nat → TreeNode S A P → Range P → TreeNode S A P
  | 0, node, _ => leafEval g consideration_target node
  | d + 1, node, range =>
    if g.is_game_over node.state then leafEval g consideration_target node
    else
      let next_actor := nextActorOf g consideration_target node.cause_action
      abLoop g (construct_best_game_tree_alpha_beta g consideration_target d)
        next_actor consideration_target node range
        (g.iterate_available_actions node.state next_actor)

/-- `AlphaBetaStrategy::select_action` of `lib.rs` (lines 203-217): search from
a fresh root with the full window `[Payoff::min_value, Payoff::max_value]`,
then read the retained best child's causing action. -/
def select_action [LinearOrder P] (g : Game S A P) (search_depth : Nat)
    (state : S) (actor : Actor) : Option A :=
  let result := construct_best_game_tree_alpha_beta g actor search_depth
    (TreeNode.mk state none none none) ⟨g.min_value, g.max_value⟩
  (result.payoff.bind fun _ => result.child).bind fun best => best.cause_action

/-! ### Brute-force full-width minimax comparator (for the pruning-equivalence
claim): the same recursion and first-found tie-break, but with no window and
no cutoff, so every child of every node is examined. -/

/-- Full-width counterpart of `abLoop`: identical child construction, `None`
skipping and strict-preference tie-break, but no window narrowing and no
`break`. -/
def mmLoop [LinearOrder P] (g : Game S A P)
    (recurse : TreeNode S A P → TreeNode S A P)
    (next_actor consideration_target : Actor) :
    TreeNode S A P → List A → TreeNode S A P
  | node, [] => node
  | node, a :: rest =>
    let child := recurse (TreeNode.mk (g.translate_state node.state a) (some a) none none)
    match child.payoff with
    | none => mmLoop g recurse next_actor consideration_target node rest
    | some child_payoff =>
      let skip : Bool :=
        match node.payoff with
        | some e =>
          if next_actor = consideration_target then decide (child_payoff ≤ e)
          else decide (e ≤ child_payoff)
        | none => false
      if skip then mmLoop g recurse next_actor consideration_target node rest
      else
        mmLoop g recurse next_actor consideration_target
          (TreeNode.mk node.state node.cause_action (some child_payoff) (some child)) rest

/-- Full-width counterpart of `construct_best_game_tree_alpha_beta`. -/
def construct_best_game_tree_full [LinearOrder P] (g : Game S A P)
    (consideration_target : Actor) : Nat → TreeNode S A P → TreeNode S A P
  | 0, node => leafEval g consideration_target node
  | d + 1, node =>
    if g.is_game_over node.state then leafEval g consideration_target node
    else
      let next_actor := nextActorOf g consideration_target node.cause_action
      mmLoop g (construct_best_game_tree_full g consideration_target d)
        next_actor consideration_target node
        (g.iterate_available_actions node.state next_actor)

/-- Entry point of the brute-force comparator, extracting the answer exactly
as `select_action` does. -/
def select_action_full [LinearOrder P] (g : Game S A P) (search_depth : Nat)
    (state : S) (actor : Actor) : Option A :=
  let result := construct_best_game_tree_full g actor search_depth
    (TreeNode.mk state none none none)
  (result.payoff.bind fun _ => result.child).bind fun best => best.cause_action

/-! ### Specification-side value functions and folds. -/

/-- Strict-improvement preference: is candidate payoff `v` strictly preferred
to the current best `e`?  Maximize when `isMax`, minimize otherwise. -/
def better [LinearOrder P] (isMax : Bool) (v e : P) : Bool :=
  if isMax then decide (e < v) else decide (v < e)

/-- First-found strict-improvement fold over a list of payoffs. -/
def valFold [LinearOrder P] (isMax : Bool) : Option P → List P → Option P
  | acc, [] => acc
  | acc, v :: rest =>
    match acc with
    | none => valFold isMax (some v) rest
    | some e =>
      if better isMax v e then valFold isMax (some v) rest
      else valFold isMax (some e) rest

/-- First-found strict-improvement fold over a list of tagged payoffs:
keeps the first element achieving the extremum (a tie never replaces the
incumbent). -/
def foldBest {α : Type} [LinearOrder P] (isMax : Bool) :
    Option (α × P) → List (α × P) → Option (α × P)
  | acc, [] => acc
  | acc, cv :: rest =>
    match acc with
    | none => foldBest isMax (some cv) rest
    | some ce =>
      if better isMax cv.2 ce.2 then foldBest isMax (some cv) rest
      else foldBest isMax (some ce) rest

/-- The mathematical minimax value of a position, threading the causing action
exactly as the engine derives the actor to move; `none` means no legal
continuation anywhere below (stalemate). -/
def mmValue [LinearOrder P] (g : Game S A P) (consideration_target : Actor) :
    Nat → Option A → S → Option P
  | 0, _, s => some (g.evaluate_payoff_for consideration_target s)
  | d + 1, cause, s =>
    if g.is_game_over s then some (g.evaluate_payoff_for consideration_target s)
    else
      let na := nextActorOf g consideration_target cause
      valFold (decide (na = consideration_target)) none
        ((g.iterate_available_actions s na).filterMap fun a =>
          mmValue g consideration_target d (some a) (g.translate_state s a))

/-- One-ply preference: the first action (with its score) maximizing the
evaluator's score of the immediately resulting position. -/
def one_ply_best [LinearOrder P] (g : Game S A P) (actor : Actor) (s : S)
    (acts : List A) : Option (A × P) :=
  foldBest true none
    (acts.map fun a => (a, g.evaluate_payoff_for actor (g.translate_state s a)))

/-! ### Instrumented copies of the engine loop.  Each replicates `abLoop`
verbatim and additionally reports one observation about the run; the
agreement of the first component with `abLoop` is proved below. -/

/-- `abLoop` instrumented to also collect, in enumeration order, the children
the engine scores (those whose recursive search returns a payoff), paired
with their payoffs.  Children skipped by the cutoff `break` are not scored. -/
def abLoopS [LinearOrder P] (g : Game S A P)
    (recurse : TreeNode S A P → Range P → TreeNode S A P)
    (next_actor consideration_target : Actor) :
    TreeNode S A P → Range P → List A → TreeNode S A P × List (TreeNode S A P × P)
  | node, _, [] => (node, [])
  | node, range, a :: rest =>
    let child := recurse
      (TreeNode.mk (g.translate_state node.state a) (some a) none none) range
    match child.payoff with
    | none => abLoopS g recurse next_actor consideration_target node range rest
    | some child_payoff =>
      let skip : Bool :=
        match node.payoff with
        | some e =>
          if next_actor = consideration_target then decide (child_payoff ≤ e)
          else decide (e ≤ child_payoff)
        | none => false
      if skip then
        let t := abLoopS g recurse next_actor consideration_target node range rest
        (t.1, (child, child_payoff) :: t.2)
      else
        let node' := TreeNode.mk node.state node.cause_action (some child_payoff)
          (some child)
        match (if next_actor = consideration_target then
                 Range.try_new child_payoff range.max
               else Range.try_new range.min child_payoff) with
        | some r =>
          let t := abLoopS g recurse next_actor consideration_target node' r rest
          (t.1, (child, child_payoff) :: t.2)
        | none => (node', [(child, child_payoff)])

/-- `abLoop` instrumented to also report whether the `debug_assert` at the top
of every recursive call it makes would hold (the flag of each recursive
result, and-ed together). -/
def abLoopA [LinearOrder P] (g : Game S A P)
    (recurse : TreeNode S A P → Range P → TreeNode S A P × Bool)
    (next_actor consideration_target : Actor) :
    TreeNode S A P → Range P → List A → TreeNode S A P × Bool
  | node, _, [] => (node, true)
  | node, range, a :: rest =>
    let cres := recurse
      (TreeNode.mk (g.translate_state node.state a) (some a) none none) range
    match cres.1.payoff with
    | none =>
      let t := abLoopA g recurse next_actor consideration_target node range rest
      (t.1, cres.2 && t.2)
    | some child_payoff =>
      let skip : Bool :=
        match node.payoff with
        | some e =>
          if next_actor = consideration_target then decide (child_payoff ≤ e)
          else decide (e ≤ child_payoff)
        | none => false
      if skip then
        let t := abLoopA g recurse next_actor consideration_target node range rest
        (t.1, cres.2 && t.2)
      else
        let node' := TreeNode.mk node.state node.cause_action (some child_payoff)
          (some cres.1)
        match (if next_actor = consideration_target then
                 Range.try_new child_payoff range.max
               else Range.try_new range.min child_payoff) with
        | some r =>
          let t := abLoopA g recurse next_actor consideration_target node' r rest
          (t.1, cres.2 && t.2)
        | none => (node', cres.2)

/-- `construct_best_game_tree_alpha_beta` instrumented to report whether the
`debug_assert!(current_node.payoff.is_none())` at the top of this call and of
every recursive call holds. -/
def cbgtA [LinearOrder P] (g : Game S A P) (consideration_target : Actor) :
    Nat → TreeNode S A P → Range P → TreeNode S A P × Bool
  | 0, node, _ => (leafEval g consideration_target node, node.payoff.isNone)
  | d + 1, node, range =>
    if g.is_game_over node.state then
      (leafEval g consideration_target node, node.payoff.isNone)
    else
      let next_actor := nextActorOf g consideration_target node.cause_action
      let r := abLoopA g (cbgtA g consideration_target d)
        next_actor consideration_target node range
        (g.iterate_available_actions node.state next_actor)
      (r.1, node.payoff.isNone && r.2)

/-- Is `inner` a sub-interval of `outer`? -/
def subRange [LinearOrder P] (inner outer : Range P) : Bool :=
  decide (outer.min ≤ inner.min) && decide (inner.max ≤ outer.max)

/-- `abLoop` instrumented to also report whether every window update performed
in this loop narrows the window (the freshly constructed range is a
sub-interval of the range it replaces), and-ed with the flags of the
recursive calls. -/
def abLoopW [LinearOrder P] (g : Game S A P)
    (recurse : TreeNode S A P → Range P → TreeNode S A P × Bool)
    (next_actor consideration_target : Actor) :
    TreeNode S A P → Range P → List A → TreeNode S A P × Bool
  | node, _, [] => (node, true)
  | node, range, a :: rest =>
    let cres := recurse
      (TreeNode.mk (g.translate_state node.state a) (some a) none none) range
    match cres.1.payoff with
    | none =>
      let t := abLoopW g recurse next_actor consideration_target node range rest
      (t.1, cres.2 && t.2)
    | some child_payoff =>
      let skip : Bool :=
        match node.payoff with
        | some e =>
          if next_actor = consideration_target then decide (child_payoff ≤ e)
          else decide (e ≤ child_payoff)
        | none => false
      if skip then
        let t := abLoopW g recurse next_actor consideration_target node range rest
        (t.1, cres.2 && t.2)
      else
        let node' := TreeNode.mk node.state node.cause_action (some child_payoff)
          (some cres.1)
        match (if next_actor = consideration_target then
                 Range.try_new child_payoff range.max
               else Range.try_new range.min child_payoff) with
        | some r =>
          let t := abLoopW g recurse next_actor consideration_target node' r rest
          (t.1, cres.2 && subRange r range && t.2)
        | none => (node', cres.2)

/-- `construct_best_game_tree_alpha_beta` instrumented to report whether every
window the engine constructs and installs, anywhere in the search, narrows
the window it replaces. -/
def cbgtW [LinearOrder P] (g : Game S A P) (consideration_target : Actor) :
    Nat → TreeNode S A P → Range P → TreeNode S A P × Bool
  | 0, node, _ => (leafEval g consideration_target node, true)
  | d + 1, node, range =>
    if g.is_game_over node.state then (leafEval g consideration_target node, true)
    else
      let next_actor := nextActorOf g consideration_target node.cause_action
      abLoopW g (cbgtW g consideration_target d)
        next_actor consideration_target node range
        (g.iterate_available_actions node.state next_actor)

/-! ### Negamax variant. -/

/-- Modelled from the spec: the negamax variant of section 4.5 is not present
under `src/`.  Loop body of the reformulated recursion: each recursive call
negates and swaps the window bounds, negates the returned child payoff, and
combines it with the running best through the single maximizing code path
(first-found strict improvement, raise the lower bound to the accepted value,
stop on an empty window). -/
def negaLoop [LinearOrder P] (g : Game S A P) (neg : P → P)
    (recurse : Option A → S → P → P → Option (P × Option A)) (s : S) (hi : P) :
    Option (P × Option A) → P → List A → Option (P × Option A)
  | best, _, [] => best
  | best, lo, a :: rest =>
    match recurse (some a) (g.translate_state s a) (neg hi) (neg lo) with
    | none => negaLoop g neg recurse s hi best lo rest
    | some cv =>
      let v := neg cv.1
      let skip : Bool :=
        match best with
        | some ev => decide (v ≤ ev.1)
        | none => false
      if skip then negaLoop g neg recurse s hi best lo rest
      else
        match Range.try_new v hi with
        | some r => negaLoop g neg recurse s hi (some (v, some a)) r.min rest
        | none => some (v, some a)

/-- Modelled from the spec: the negamax variant of section 4.5 is not present
under `src/`.  Recursive negamax over `(remainingDepth, cause, position,
window)`: the actor to move is the opponent of the actor who caused this node
(the root uses the searching actor itself, section 4.4 step 2); a leaf is
scored from the actor to move's own perspective; the result is the node's
value together with the causing action of its best retained child. -/
def negamax [LinearOrder P] (g : Game S A P) (neg : P → P)
    (consideration_target : Actor) :
    Nat → Option A → S → P → P → Option (P × Option A)
  | 0, cause, s, _, _ =>
    some (g.evaluate_payoff_for (nextActorOf g consideration_target cause) s, none)
  | d + 1, cause, s, lo, hi =>
    if g.is_game_over s then
      some (g.evaluate_payoff_for (nextActorOf g consideration_target cause) s, none)
    else
      let tm := nextActorOf g consideration_target cause
      negaLoop g neg (negamax g neg consideration_target d) s hi none lo
        (g.iterate_available_actions s tm)

/-- Modelled from the spec: entry point of the negamax variant (sections 4.5
and 4.6): search from the root with the full window and return the causing
action of the root's best child, none when the root has none. -/
def select_action_negamax [LinearOrder P] (g : Game S A P) (neg : P → P)
    (search_depth : Nat) (state : S) (actor : Actor) : Option A :=
  match negamax g neg actor search_depth none state g.min_value g.max_value with
  | some vp => vp.2
  | none => none

/-! ### Small concrete games used for counterexamples and witnesses. -/

instance : Fintype Actor :=
  ⟨⟨{Actor.First, Actor.Second}, by decide⟩, fun a => by cases a <;> decide⟩

/-- A tiny game: from state 0 the first player has two moves, to states 1
(worth 5) and 2 (worth 7); every other position has no moves, and no position
is ever game-over. -/
def gTiny : Game (Fin 3) (Actor × Fin 3) Int where
  actor_of := Prod.fst
  is_game_over := fun _ => false
  iterate_available_actions := fun s act =>
    if s = 0 ∧ act = Actor.First then [(Actor.First, 1), (Actor.First, 2)] else []
  translate_state := fun _ a => a.2
  evaluate_payoff_for := fun _ s => if s = 1 then 5 else if s = 2 then 7 else 0
  min_value := -100
  max_value := 100

/-- A stalemate game: from state 0 the first player has one move to state 1,
where the second player has no moves; no position is game-over. -/
def gStale : Game (Fin 2) (Actor × Fin 2) Int where
  actor_of := Prod.fst
  is_game_over := fun _ => false
  iterate_available_actions := fun s act =>
    if s = 0 ∧ act = Actor.First then [(Actor.First, 1)] else []
  translate_state := fun _ a => a.2
  evaluate_payoff_for := fun _ _ => 0
  min_value := -100
  max_value := 100

/-- A depth-3 game exhibiting window widening: the root's first subtree is
worth 10; inside the second subtree a grandchild's first leaf is worth 5, so
the engine installs the window `[5, 100]` in place of the received
`[10, 100]`. -/
def gWide : Game (Fin 8) (Actor × Fin 8) Int where
  actor_of := Prod.fst
  is_game_over := fun _ => false
  iterate_available_actions := fun s act =>
    if s = 0 ∧ act = Actor.First then [(Actor.First, 1), (Actor.First, 2)]
    else if s = 1 ∧ act = Actor.Second then [(Actor.Second, 3)]
    else if s = 3 ∧ act = Actor.First then [(Actor.First, 4)]
    else if s = 2 ∧ act = Actor.Second then [(Actor.Second, 5)]
    else if s = 5 ∧ act = Actor.First then [(Actor.First, 6), (Actor.First, 7)]
    else []
  translate_state := fun _ a => a.2
  evaluate_payoff_for := fun _ s =>
    if s = 4 then 10 else if s = 6 then 5 else if s = 7 then 20 else 0
  min_value := -100
  max_value := 100

/-- A zero-sum game for the negamax equivalence witness: two moves for the
first player from state 0, evaluations antisymmetric between the players. -/
def gZeroSum : Game (Fin 3) (Actor × Fin 3) Int where
  actor_of := Prod.fst
  is_game_over := fun _ => false
  iterate_available_actions := fun s act =>
    if s = 0 ∧ act = Actor.First then [(Actor.First, 1), (Actor.First, 2)] else []
  translate_state := fun _ a => a.2
  evaluate_payoff_for := fun act s =>
    (if act = Actor.First then 1 else -1) *
      (if s = 1 then 3 else if s = 2 then -2 else 0)
  min_value := -100
  max_value := 100

/-! ## Basic lemmas about the embedding. -/

@[simp]
theorem TreeNode.state_mk {S A P : Type} (s : S) (c : Option A) (p : Option P)
    (ch : Option (TreeNode S A P)) : (TreeNode.mk s c p ch).state = s := rfl

@[simp]
theorem TreeNode.cause_action_mk {S A P : Type} (s : S) (c : Option A) (p : Option P)
    (ch : Option (TreeNode S A P)) : (TreeNode.mk s c p ch).cause_action = c := rfl

@[simp]
theorem TreeNode.payoff_mk {S A P : Type} (s : S) (c : Option A) (p : Option P)
    (ch : Option (TreeNode S A P)) : (TreeNode.mk s c p ch).payoff = p := rfl

@[simp]
theorem TreeNode.child_mk {S A P : Type} (s : S) (c : Option A) (p : Option P)
    (ch : Option (TreeNode S A P)) : (TreeNode.mk s c p ch).child = ch := rfl

theorem abLoop_pres [LinearOrder P] (g : Game S A P)
    (rec : TreeNode S A P → Range P → TreeNode S A P) (na ct : Actor) :
    ∀ (acts : List A) (node : TreeNode S A P) (range : Range P),
      (abLoop g rec na ct node range acts).state = node.state ∧
      (abLoop g rec na ct node range acts).cause_action = node.cause_action := by
  intro acts
  induction acts with
  | nil => intro node range; exact ⟨rfl, rfl⟩
  | cons a rest ih =>
    intro node range
    simp only [abLoop]
    split
    · exact ih node range
    · repeat' split
      all_goals first
      | exact ih node range
      | exact ⟨rfl, rfl⟩
      | simpa using ih _ _

theorem cbgt_pres [LinearOrder P] (g : Game S A P) (ct : Actor) :
    ∀ (d : Nat) (node : TreeNode S A P) (range : Range P),
      (construct_best_game_tree_alpha_beta g ct d node range).state = node.state ∧
      (construct_best_game_tree_alpha_beta g ct d node range).cause_action =
        node.cause_action := by
  intro d
  induction d with
  | zero => intro node range; exact ⟨rfl, rfl⟩
  | succ d ih =>
    intro node range
    simp only [construct_best_game_tree_alpha_beta]
    split
    · exact ⟨rfl, rfl⟩
    · exact abLoop_pres g _ _ ct _ node range

theorem cbgt_cause [LinearOrder P] (g : Game S A P) (ct : Actor)
    (d : Nat) (node : TreeNode S A P) (range : Range P) :
    (construct_best_game_tree_alpha_beta g ct d node range).cause_action =
      node.cause_action :=
  (cbgt_pres g ct d node range).2

theorem abLoop_keep [LinearOrder P] (g : Game S A P)
    (rec : TreeNode S A P → Range P → TreeNode S A P) (na ct : Actor)
    (Hrec : ∀ n r, (rec n r).cause_action = n.cause_action) :
    ∀ (acts : List A) (node : TreeNode S A P) (range : Range P),
      node.payoff.isSome = true →
      (∃ c, node.child = some c ∧ c.cause_action.isSome = true) →
      (abLoop g rec na ct node range acts).payoff.isSome = true ∧
      ∃ c, (abLoop g rec na ct node range acts).child = some c ∧
        c.cause_action.isSome = true := by
  intro acts
  induction acts with
  | nil => intro node range h1 h2; exact ⟨h1, h2⟩
  | cons a rest ih =>
    intro node range h1 h2
    simp only [abLoop]
    split
    · exact ih node range h1 h2
    · repeat' split
      all_goals first
      | exact ih node range h1 h2
      | exact ih _ _ rfl ⟨_, rfl, by rw [Hrec]; rfl⟩
      | exact ⟨rfl, _, rfl, by rw [Hrec]; rfl⟩

theorem abLoop_child_mem [LinearOrder P] (g : Game S A P)
    (rec : TreeNode S A P → Range P → TreeNode S A P) (na ct : Actor)
    (Hrec : ∀ n r, (rec n r).cause_action = n.cause_action) :
    ∀ (acts : List A) (node : TreeNode S A P) (range : Range P),
      (abLoop g rec na ct node range acts).child = node.child ∨
      ∃ c b, (abLoop g rec na ct node range acts).child = some c ∧
        c.cause_action = some b ∧ b ∈ acts := by
  intro acts
  induction acts with
  | nil => intro node range; exact Or.inl rfl
  | cons a rest ih =>
    intro node range
    simp only [abLoop]
    split
    · refine (ih node range).imp id ?_
      rintro ⟨c, b, h1, h2, h3⟩
      exact ⟨c, b, h1, h2, List.mem_cons_of_mem _ h3⟩
    · repeat' split
      all_goals first
      | (refine (ih node range).imp id ?_
         rintro ⟨c, b, h1, h2, h3⟩
         exact ⟨c, b, h1, h2, List.mem_cons_of_mem _ h3⟩)
      | (rcases ih _ _ with h | ⟨c, b, h1, h2, h3⟩
         · exact Or.inr ⟨_, a, h, by rw [Hrec]; rfl, List.mem_cons_self a rest⟩
         · exact Or.inr ⟨c, b, h1, h2, List.mem_cons_of_mem _ h3⟩)
      | exact Or.inr ⟨_, a, rfl, by rw [Hrec]; rfl, List.mem_cons_self a rest⟩

theorem abLoop_fresh [LinearOrder P] (g : Game S A P)
    (rec : TreeNode S A P → Range P → TreeNode S A P) (na ct : Actor)
    (Hrec : ∀ n r, (rec n r).cause_action = n.cause_action) :
    ∀ (acts : List A) (s : S) (cause : Option A) (range : Range P),
      ((∀ a ∈ acts,
          (rec (TreeNode.mk (g.translate_state s a) (some a) none none) range).payoff
            = none) →
        abLoop g rec na ct (TreeNode.mk s cause none none) range acts =
          TreeNode.mk s cause none none) ∧
      ((∃ a ∈ acts,
          (rec (TreeNode.mk (g.translate_state s a) (some a) none none) range).payoff
            ≠ none) →
        (abLoop g rec na ct (TreeNode.mk s cause none none) range acts).payoff.isSome
          = true ∧
        ∃ c, (abLoop g rec na ct (TreeNode.mk s cause none none) range acts).child
            = some c ∧ c.cause_action.isSome = true) := by
  intro acts
  induction acts with
  | nil =>
    intro s cause range
    exact ⟨fun _ => rfl, fun ⟨a, ha, _⟩ => absurd ha (List.not_mem_nil a)⟩
  | cons a rest ih =>
    intro s cause range
    simp only [abLoop, TreeNode.payoff_mk, TreeNode.state_mk, TreeNode.cause_action_mk]
    cases hcp : (rec (TreeNode.mk (g.translate_state s a) (some a) none none)
        range).payoff with
    | none =>
      simp only [hcp]
      constructor
      · intro h
        exact (ih s cause range).1 fun b hb => h b (List.mem_cons_of_mem a hb)
      · rintro ⟨b, hb, hbp⟩
        rcases List.mem_cons.mp hb with rfl | hb'
        · exact absurd hcp hbp
        · exact (ih s cause range).2 ⟨b, hb', hbp⟩
    | some v =>
      simp only [hcp]
      constructor
      · intro h
        exact absurd (h a (List.mem_cons_self a rest)) (by simp [hcp])
      · intro _
        repeat' split
        all_goals first
        | exact (Bool.false_ne_true ‹false = true›).elim
        | exact abLoop_keep g rec na ct Hrec rest _ _ (by rfl)
            ⟨_, by rfl, by rw [Hrec]; rfl⟩
        | (refine ⟨rfl, _, rfl, ?_⟩
           rw [Hrec]; rfl)

theorem cbgt_root_loop [LinearOrder P] (g : Game S A P) (actor : Actor) (d : Nat)
    (s : S) (range : Range P) (hgo : g.is_game_over s = false) :
    construct_best_game_tree_alpha_beta g actor (d + 1)
        (TreeNode.mk s none none none) range =
      abLoop g (construct_best_game_tree_alpha_beta g actor d) actor actor
        (TreeNode.mk s none none none) range
        (g.iterate_available_actions s actor) := by
  simp [construct_best_game_tree_alpha_beta, hgo, nextActorOf]

/-- C1 (amended): `select_action` returns `None` exactly when the search depth
is zero, or the root position is already game-over, or no root child search
returns a payoff; in particular it returns `None` whenever
`iterate_available_actions` is empty, but `None` also occurs with legal
actions available (depth zero, game-over roots, or all children stalemated). -/
theorem c1_select_action_none_characterization [LinearOrder P] (g : Game S A P)
    (d : Nat) (s : S) (actor : Actor) :
    select_action g d s actor = none ↔
      (d = 0 ∨ g.is_game_over s = true ∨
        ∀ a ∈ g.iterate_available_actions s actor,
          (construct_best_game_tree_alpha_beta g actor (d - 1)
            (TreeNode.mk (g.translate_state s a) (some a) none none)
            ⟨g.min_value, g.max_value⟩).payoff = none) := by
  cases d with
  | zero => simp [select_action, construct_best_game_tree_alpha_beta, leafEval]
  | succ d =>
    cases hgo : g.is_game_over s with
    | true => simp [select_action, construct_best_game_tree_alpha_beta, leafEval, hgo]
    | false =>
      have hfa := abLoop_fresh g (construct_best_game_tree_alpha_beta g actor d)
        actor actor (fun n r => cbgt_cause g actor d n r)
        (g.iterate_available_actions s actor) s none ⟨g.min_value, g.max_value⟩
      constructor
      · intro hnone
        refine Or.inr (Or.inr ?_)
        intro a ha
        by_contra hne
        rcases hfa.2 ⟨a, ha, hne⟩ with ⟨hp, c, hc, hcc⟩
        rcases Option.isSome_iff_exists.mp hp with ⟨p, hp'⟩
        rcases Option.isSome_iff_exists.mp hcc with ⟨b, hb⟩
        have hsel : select_action g (d + 1) s actor = some b := by
          simp only [select_action]
          rw [cbgt_root_loop g actor d s _ hgo]
          simp [hp', hc, hb]
        rw [hsel] at hnone
        exact Option.noConfusion hnone
      · intro hrhs
        rcases hrhs with h0 | hg | hall
        · exact absurd h0 (Nat.succ_ne_zero d)
        · exact absurd hg (by simp)
        · have hroot := hfa.1 hall
          simp only [select_action]
          rw [cbgt_root_loop g actor d s _ hgo, hroot]
          simp

/-- C1 counterexample: at search depth 0 on a position with two legal actions
for `First` and no game-over, `select_action` returns `None` even though
`iterate_available_actions` is nonempty, refuting the claimed equivalence. -/
theorem c1_counterexample :
    ¬ (select_action gTiny 0 0 Actor.First = none ↔
       gTiny.iterate_available_actions 0 Actor.First = []) := by decide

/-- C2 (amended): whenever `select_action` returns `Some a`, the action `a` is
an element of the rule's `iterate_available_actions` at the root position for
the given actor (the Some-guarantee of the original claim fails, see the
counterexample). -/
theorem c2_selected_action_is_available [LinearOrder P] (g : Game S A P)
    (d : Nat) (s : S) (actor : Actor) (a : A)
    (h : select_action g d s actor = some a) :
    a ∈ g.iterate_available_actions s actor := by
  cases d with
  | zero => simp [select_action, construct_best_game_tree_alpha_beta, leafEval] at h
  | succ d =>
    cases hgo : g.is_game_over s with
    | true =>
      simp [select_action, construct_best_game_tree_alpha_beta, leafEval, hgo] at h
    | false =>
      simp only [select_action] at h
      rw [cbgt_root_loop g actor d s _ hgo] at h
      cases hp : (abLoop g (construct_best_game_tree_alpha_beta g actor d) actor actor
          (TreeNode.mk s none none none) ⟨g.min_value, g.max_value⟩
          (g.iterate_available_actions s actor)).payoff with
      | none => rw [hp] at h; simp at h
      | some p =>
        rw [hp] at h
        cases hc : (abLoop g (construct_best_game_tree_alpha_beta g actor d) actor actor
            (TreeNode.mk s none none none) ⟨g.min_value, g.max_value⟩
            (g.iterate_available_actions s actor)).child with
        | none => rw [hc] at h; simp at h
        | some c =>
          rw [hc] at h
          simp only [Option.bind_some, Option.some_bind] at h
          rcases abLoop_child_mem g (construct_best_game_tree_alpha_beta g actor d)
              actor actor (fun n r => cbgt_cause g actor d n r)
              (g.iterate_available_actions s actor) (TreeNode.mk s none none none)
              ⟨g.min_value, g.max_value⟩ with hch | ⟨c', b, h1, h2, h3⟩
          · rw [hc] at hch; simp at hch
          · rw [hc] at h1
            injection h1 with h1
            subst h1
            rw [h2] at h
            injection h with h
            subst h
            exact h3

/-- C2 counterexample: a position whose only line is a stalemate two plies
deep: the root has one legal action for `First`, yet `select_action` at depth
2 returns `None` rather than an element of the root enumeration. -/
theorem c2_counterexample :
    gStale.iterate_available_actions 0 Actor.First ≠ [] ∧
      select_action gStale 2 0 Actor.First = none := by decide

theorem c2_witness :
    select_action gTiny 1 0 Actor.First = some (Actor.First, 2) ∧
      (Actor.First, (2 : Fin 3)) ∈ gTiny.iterate_available_actions 0 Actor.First :=
  ⟨by decide, c2_selected_action_is_available gTiny 1 0 Actor.First
    (Actor.First, 2) (by decide)⟩

/-- C9: `select_action` is deterministic: two calls with the same game, depth,
position and actor return the same optional action (the strategy value holds
no mutable state beyond its depth, so the embedding is a pure function). -/
theorem c9_select_action_deterministic [LinearOrder P] (g : Game S A P)
    (d : Nat) (s : S) (actor : Actor) (r1 r2 : Option A)
    (h1 : r1 = select_action g d s actor) (h2 : r2 = select_action g d s actor) :
    r1 = r2 :=
  h1.trans h2.symm

theorem c9_witness :
    some (Actor.First, (2 : Fin 3)) = select_action gTiny 1 0 Actor.First ∧
      select_action gTiny 1 0 Actor.First = select_action gTiny 1 0 Actor.First :=
  ⟨by decide, c9_select_action_deterministic gTiny 1 0 Actor.First
    (select_action gTiny 1 0 Actor.First) (select_action gTiny 1 0 Actor.First) rfl rfl⟩

/-- C7: a non-terminal node with positive remaining depth whose actor to move
has no legal actions is returned unchanged with payoff `None` (no failure is
signalled), and a parent whose recursive child search returns `None` skips
that child entirely: the loop continues on the same node with the same
window, so the child is never retained, never compared, and never narrows the
window. -/
theorem c7_no_actions_unscored_and_skipped [LinearOrder P] (g : Game S A P) :
    (∀ (ct : Actor) (d : Nat) (s : S) (cause : Option A)
        (c : Option (TreeNode S A P)) (range : Range P),
        0 < d → g.is_game_over s = false →
        g.iterate_available_actions s (nextActorOf g ct cause) = [] →
        construct_best_game_tree_alpha_beta g ct d (TreeNode.mk s cause none c) range =
          TreeNode.mk s cause none c) ∧
    (∀ (rec : TreeNode S A P → Range P → TreeNode S A P) (na ct : Actor)
        (node : TreeNode S A P) (range : Range P) (a : A) (rest : List A),
        (rec (TreeNode.mk (g.translate_state node.state a) (some a) none none)
            range).payoff = none →
        abLoop g rec na ct node range (a :: rest) =
          abLoop g rec na ct node range rest) := by
  constructor
  · intro ct d s cause c range hd hgo hacts
    cases d with
    | zero => exact absurd hd (by simp)
    | succ d =>
      simp [construct_best_game_tree_alpha_beta, hgo, hacts, abLoop]
  · intro rec na ct node range a rest h
    simp only [abLoop, h]

theorem c7_witness :
    (0 < 1 ∧ gStale.is_game_over 1 = false ∧
      gStale.iterate_available_actions 1
        (nextActorOf gStale Actor.First (some (Actor.First, 1))) = [] ∧
      construct_best_game_tree_alpha_beta gStale Actor.First 1
        (TreeNode.mk 1 (some (Actor.First, 1)) none none) ⟨-100, 100⟩ =
        TreeNode.mk 1 (some (Actor.First, 1)) none none) ∧
    ((construct_best_game_tree_alpha_beta gStale Actor.First 1
        (TreeNode.mk (gStale.translate_state 0 (Actor.First, 1))
          (some (Actor.First, 1)) none none) ⟨-100, 100⟩).payoff = none ∧
      abLoop gStale (construct_best_game_tree_alpha_beta gStale Actor.First 1)
          Actor.First Actor.First (TreeNode.mk 0 none none none) ⟨-100, 100⟩
          [(Actor.First, 1)] =
        abLoop gStale (construct_best_game_tree_alpha_beta gStale Actor.First 1)
          Actor.First Actor.First (TreeNode.mk 0 none none none) ⟨-100, 100⟩ []) :=
  ⟨⟨by decide, by decide, by decide,
    (c7_no_actions_unscored_and_skipped gStale).1 Actor.First 1 1
      (some (Actor.First, 1)) none ⟨-100, 100⟩ (by decide) (by decide) (by decide)⟩,
   ⟨by decide,
    (c7_no_actions_unscored_and_skipped gStale).2
      (construct_best_game_tree_alpha_beta gStale Actor.First 1)
      Actor.First Actor.First (TreeNode.mk 0 none none none) ⟨-100, 100⟩
      (Actor.First, 1) [] (by decide)⟩⟩

theorem abLoopA_flag [LinearOrder P] (g : Game S A P)
    (recA : TreeNode S A P → Range P → TreeNode S A P × Bool) (na ct : Actor)
    (HrecA : ∀ n r, n.payoff = none → (recA n r).2 = true) :
    ∀ (acts : List A) (node : TreeNode S A P) (range : Range P),
      (abLoopA g recA na ct node range acts).2 = true := by
  intro acts
  induction acts with
  | nil => intro node range; rfl
  | cons a rest ih =>
    intro node range
    have hch : (recA (TreeNode.mk (g.translate_state node.state a) (some a) none none)
        range).2 = true := HrecA _ _ rfl
    simp only [abLoopA]
    repeat' split
    all_goals simp [hch, ih]

theorem cbgtA_flag [LinearOrder P] (g : Game S A P) (ct : Actor) :
    ∀ (d : Nat) (node : TreeNode S A P) (range : Range P),
      node.payoff = none → (cbgtA g ct d node range).2 = true := by
  intro d
  induction d with
  | zero => intro node range h; simp [cbgtA, h]
  | succ d ih =>
    intro node range h
    simp only [cbgtA]
    split
    · simp [h]
    · simp [h, abLoopA_flag g _ _ ct (fun n r hn => ih n r hn)]

/-- C10: every invocation of the search, from the root call in `select_action`
and through every recursive call, receives a node whose payoff field is
`None`, so the `debug_assert!(current_node.payoff.is_none())` never fails:
the instrumented search reports the assertion as holding on every call. -/
theorem c10_debug_assert_never_fails [LinearOrder P] (g : Game S A P)
    (ct : Actor) (d : Nat) (s : S) :
    (cbgtA g ct d (TreeNode.mk s none none none)
      ⟨g.min_value, g.max_value⟩).2 = true :=
  cbgtA_flag g ct d _ _ rfl

theorem select_action_depth_zero [LinearOrder P] (g : Game S A P) (s : S)
    (actor : Actor) : select_action g 0 s actor = none := by
  simp [select_action, construct_best_game_tree_alpha_beta, leafEval]

theorem abLoop_one_ply [LinearOrder P] (g : Game S A P) (ct : Actor) (s : S)
    (cause : Option A) :
    ∀ (acts : List A) (acc : Option (A × P)) (L : P),
      (∀ a ∈ acts, g.evaluate_payoff_for ct (g.translate_state s a) ≤ g.max_value) →
      abLoop g (construct_best_game_tree_alpha_beta g ct 0) ct ct
        (match acc with
         | none => TreeNode.mk s cause none none
         | some ap => TreeNode.mk s cause (some ap.2)
             (some (TreeNode.mk (g.translate_state s ap.1) (some ap.1) (some ap.2) none)))
        ⟨L, g.max_value⟩ acts =
      (match foldBest true acc (acts.map fun a =>
          (a, g.evaluate_payoff_for ct (g.translate_state s a))) with
       | none => TreeNode.mk s cause none none
       | some ap => TreeNode.mk s cause (some ap.2)
           (some (TreeNode.mk (g.translate_state s ap.1) (some ap.1) (some ap.2) none))) := by
  intro acts
  induction acts with
  | nil => intro acc L h; cases acc <;> rfl
  | cons b rest ih =>
    intro acc L h
    have hv := h b (List.mem_cons_self b rest)
    have hrest := fun a ha => h a (List.mem_cons_of_mem b ha)
    cases acc with
    | none =>
      have hstep : abLoop g (construct_best_game_tree_alpha_beta g ct 0) ct ct
          (TreeNode.mk s cause none none) ⟨L, g.max_value⟩ (b :: rest) =
          abLoop g (construct_best_game_tree_alpha_beta g ct 0) ct ct
            (TreeNode.mk s cause
              (some (g.evaluate_payoff_for ct (g.translate_state s b)))
              (some (TreeNode.mk (g.translate_state s b) (some b)
                (some (g.evaluate_payoff_for ct (g.translate_state s b))) none)))
            ⟨g.evaluate_payoff_for ct (g.translate_state s b), g.max_value⟩ rest := by
        simp [abLoop, construct_best_game_tree_alpha_beta, leafEval, Range.try_new, hv]
      rw [hstep]
      have := ih (some (b, g.evaluate_payoff_for ct (g.translate_state s b)))
        (g.evaluate_payoff_for ct (g.translate_state s b)) hrest
      rw [this]
      simp [foldBest]
    | some ap =>
      by_cases hlt : ap.2 < g.evaluate_payoff_for ct (g.translate_state s b)
      · have hstep : abLoop g (construct_best_game_tree_alpha_beta g ct 0) ct ct
            (TreeNode.mk s cause (some ap.2)
              (some (TreeNode.mk (g.translate_state s ap.1) (some ap.1) (some ap.2) none)))
            ⟨L, g.max_value⟩ (b :: rest) =
            abLoop g (construct_best_game_tree_alpha_beta g ct 0) ct ct
              (TreeNode.mk s cause
                (some (g.evaluate_payoff_for ct (g.translate_state s b)))
                (some (TreeNode.mk (g.translate_state s b) (some b)
                  (some (g.evaluate_payoff_for ct (g.translate_state s b))) none)))
              ⟨g.evaluate_payoff_for ct (g.translate_state s b), g.max_value⟩ rest := by
          simp [abLoop, construct_best_game_tree_alpha_beta, leafEval, Range.try_new,
            hv, not_le.mpr hlt]
        rw [hstep]
        have := ih (some (b, g.evaluate_payoff_for ct (g.translate_state s b)))
          (g.evaluate_payoff_for ct (g.translate_state s b)) hrest
        rw [this]
        simp [foldBest, better, hlt]
      · have hstep : abLoop g (construct_best_game_tree_alpha_beta g ct 0) ct ct
            (TreeNode.mk s cause (some ap.2)
              (some (TreeNode.mk (g.translate_state s ap.1) (some ap.1) (some ap.2) none)))
            ⟨L, g.max_value⟩ (b :: rest) =
            abLoop g (construct_best_game_tree_alpha_beta g ct 0) ct ct
              (TreeNode.mk s cause (some ap.2)
                (some (TreeNode.mk (g.translate_state s ap.1) (some ap.1) (some ap.2) none)))
              ⟨L, g.max_value⟩ rest := by
          simp [abLoop, construct_best_game_tree_alpha_beta, leafEval,
            not_lt.mp hlt]
        rw [hstep]
        have := ih (some ap) L hrest
        rw [this]
        simp [foldBest, better, hlt]

/-- C4 counterexample: at `search_depth = 0` on a non-terminal position with
exactly one legal action (hence a unique score-maximizing action), the engine
treats the root as a leaf and `select_action` returns `None` instead of that
action. -/
theorem c4_counterexample :
    gStale.iterate_available_actions 0 Actor.First = [(Actor.First, 1)] ∧
      select_action gStale 0 0 Actor.First = none := by decide

/-- C4 (amended): with `search_depth = 0` the root is evaluated as a leaf and
`select_action` always returns `None`; the claimed one-ply maximization is the
`search_depth = 1` behavior: on a non-terminal position (with the evaluator
within the payoff bound, as `Bounded` guarantees in Rust) the chosen action is
the first legal action maximizing the evaluator's score of the immediately
resulting position, with no deeper lookahead. -/
theorem c4_depth_zero_none_and_depth_one_one_ply [LinearOrder P] (g : Game S A P)
    (s : S) (actor : Actor)
    (hgo : g.is_game_over s = false)
    (hb : ∀ a ∈ g.iterate_available_actions s actor,
      g.evaluate_payoff_for actor (g.translate_state s a) ≤ g.max_value) :
    select_action g 0 s actor = none ∧
    select_action g 1 s actor =
      (one_ply_best g actor s (g.iterate_available_actions s actor)).map
        Prod.fst := by
  refine ⟨select_action_depth_zero g s actor, ?_⟩
  simp only [select_action]
  rw [cbgt_root_loop g actor 0 s _ hgo]
  have h1 : abLoop g (construct_best_game_tree_alpha_beta g actor 0) actor actor
      (TreeNode.mk s none none none) ⟨g.min_value, g.max_value⟩
      (g.iterate_available_actions s actor) =
      (match foldBest true none ((g.iterate_available_actions s actor).map fun a =>
          (a, g.evaluate_payoff_for actor (g.translate_state s a))) with
       | none => TreeNode.mk s none none none
       | some ap => TreeNode.mk s none (some ap.2)
           (some (TreeNode.mk (g.translate_state s ap.1) (some ap.1) (some ap.2) none))) :=
    abLoop_one_ply g actor s none (g.iterate_available_actions s actor) none
      g.min_value hb
  rw [h1]
  cases hfb : foldBest true none ((g.iterate_available_actions s actor).map fun a =>
      (a, g.evaluate_payoff_for actor (g.translate_state s a))) with
  | none => simp [one_ply_best, hfb]
  | some ap => simp [one_ply_best, hfb]

theorem c4_witness :
    (gTiny.is_game_over 0 = false ∧
      ∀ a ∈ gTiny.iterate_available_actions 0 Actor.First,
        gTiny.evaluate_payoff_for Actor.First (gTiny.translate_state 0 a) ≤
          gTiny.max_value) ∧
    (select_action gTiny 0 0 Actor.First = none ∧
      select_action gTiny 1 0 Actor.First =
        (one_ply_best gTiny Actor.First 0
          (gTiny.iterate_available_actions 0 Actor.First)).map Prod.fst) :=
  ⟨⟨by decide, by decide⟩,
    c4_depth_zero_none_and_depth_one_one_ply gTiny 0 Actor.First (by decide)
      (by decide)⟩

/-- C5 counterexample: in `gWide` at depth 3 the engine, at a maximizing
grandchild that received the window `[10, 100]`, scores a first child worth 5
and installs the window `[5, 100]`, which is not a sub-interval of the window
it replaces: the instrumented search reports a non-narrowing update on a run
started from the root window. -/
theorem c5_counterexample :
    (cbgtW gWide Actor.First 3 (TreeNode.mk 0 none none none)
      ⟨gWide.min_value, gWide.max_value⟩).2 = false := by decide

/-- C5 (amended): once a node's payoff is set and the preferring-side bound of
the current window equals that payoff (the loop invariant from the first
retained child onward), every window the loop subsequently constructs is a
sub-interval of the window it replaces; only a node's first retained child may
install a bound outside the received window. -/
theorem c5_window_narrows_after_first_retained [LinearOrder P] (g : Game S A P)
    (rec : TreeNode S A P → Range P → TreeNode S A P) (na ct : Actor) :
    ∀ (acts : List A) (s : S) (cause : Option A) (c : Option (TreeNode S A P))
      (e : P) (range : Range P),
      (na = ct → range.min = e) → (na ≠ ct → range.max = e) →
      (abLoopW g (fun n r => (rec n r, true)) na ct
        (TreeNode.mk s cause (some e) c) range acts).2 = true := by
  intro acts
  induction acts with
  | nil => intro s cause c e range h1 h2; rfl
  | cons a rest ih =>
    intro s cause c e range h1 h2
    simp only [abLoopW]
    cases hcp : (rec (TreeNode.mk (g.translate_state s a) (some a) none none)
        range).payoff with
    | none => simp [hcp, ih s cause c e range h1 h2]
    | some v =>
      by_cases hna : na = ct
      · subst hna
        have hmin : range.min = e := h1 rfl
        by_cases hle : v ≤ e
        · simp [hcp, hle, ih s cause c e range (fun _ => hmin) h2]
        · by_cases hvm : v ≤ range.max
          · have hsub : subRange (⟨v, range.max⟩ : Range P) range = true := by
              simp [subRange, hmin, le_of_lt (not_le.mp hle)]
            simp [hcp, hle, Range.try_new, hvm, hsub,
              ih s cause
                (some (rec (TreeNode.mk (g.translate_state s a) (some a) none none)
                  range))
                v ⟨v, range.max⟩ (fun _ => rfl) (fun hc => absurd rfl hc)]
          · simp [hcp, hle, Range.try_new, hvm]
      · have hmax : range.max = e := h2 hna
        by_cases hle : e ≤ v
        · simp [hcp, hna, hle, ih s cause c e range (fun hc => absurd hc hna)
            (fun _ => hmax)]
        · by_cases hvm : range.min ≤ v
          · have hsub : subRange (⟨range.min, v⟩ : Range P) range = true := by
              simp [subRange, hmax, le_of_lt (not_le.mp hle)]
            simp [hcp, hna, hle, Range.try_new, hvm, hsub,
              ih s cause
                (some (rec (TreeNode.mk (g.translate_state s a) (some a) none none)
                  range))
                v ⟨range.min, v⟩ (fun hc => absurd hc hna) (fun _ => rfl)]
          · simp [hcp, hna, hle, Range.try_new, hvm]

theorem c5_witness :
    ((Actor.First = Actor.First → (⟨5, 100⟩ : Range Int).min = 5) ∧
     (Actor.First ≠ Actor.First → (⟨5, 100⟩ : Range Int).max = 5)) ∧
    (abLoopW gTiny
      (fun n r => (construct_best_game_tree_alpha_beta gTiny Actor.First 0 n r, true))
      Actor.First Actor.First (TreeNode.mk 0 none (some 5) none) ⟨5, 100⟩
      [(Actor.First, 2)]).2 = true :=
  ⟨⟨fun _ => rfl, fun h => absurd rfl h⟩,
   c5_window_narrows_after_first_retained gTiny
     (construct_best_game_tree_alpha_beta gTiny Actor.First 0) Actor.First
     Actor.First [(Actor.First, 2)] 0 none none 5 ⟨5, 100⟩ (fun _ => rfl)
     (fun h => absurd rfl h)⟩

theorem better_irrefl [LinearOrder P] (isMax : Bool) (v : P) :
    better isMax v v = false := by
  cases isMax <;> simp [better]

theorem better_asymm [LinearOrder P] (isMax : Bool) {a b : P}
    (h : better isMax a b = true) : better isMax b a = false := by
  cases isMax <;> simp [better] at h ⊢ <;> exact le_of_lt h

theorem better_trans [LinearOrder P] (isMax : Bool) {a b c : P}
    (h1 : better isMax a b = true) (h2 : better isMax b c = true) :
    better isMax a c = true := by
  cases isMax <;> simp [better] at h1 h2 ⊢
  · exact lt_trans h1 h2
  · exact lt_trans h2 h1

theorem better_of_not_of [LinearOrder P] (isMax : Bool) {v x r : P}
    (h1 : better isMax v x = false) (h2 : better isMax r x = true) :
    better isMax r v = true := by
  cases isMax <;> simp [better] at h1 h2 ⊢
  · exact lt_of_lt_of_le h2 h1
  · exact lt_of_le_of_lt h1 h2

theorem foldBest_some_char [LinearOrder P] {α : Type} (isMax : Bool) :
    ∀ (l : List (α × P)) (x : α × P),
      ∃ r, foldBest isMax (some x) l = some r ∧
        ((r = x ∧ ∀ i (hi : i < l.length),
            better isMax (l.get ⟨i, hi⟩).2 x.2 = false) ∨
         (∃ i, ∃ hi : i < l.length, r = l.get ⟨i, hi⟩ ∧
            better isMax r.2 x.2 = true ∧
            (∀ j (hj : j < l.length), better isMax (l.get ⟨j, hj⟩).2 r.2 = false) ∧
            (∀ j (hj : j < i),
              better isMax r.2 (l.get ⟨j, Nat.lt_trans hj hi⟩).2 = true))) := by
  intro l
  induction l with
  | nil =>
    intro x
    exact ⟨x, rfl, Or.inl ⟨rfl, fun i hi => absurd hi (Nat.not_lt_zero i)⟩⟩
  | cons y rest ih =>
    intro x
    cases hb : better isMax y.2 x.2 with
    | true =>
      obtain ⟨r, hr, hcase⟩ := ih y
      refine ⟨r, by simp [foldBest, hb, hr], ?_⟩
      rcases hcase with ⟨hrx, hall⟩ | ⟨i, hi, hri, hbx, hall, hfirst⟩
      · subst hrx
        refine Or.inr ⟨0, Nat.succ_pos _, rfl, hb, ?_, ?_⟩
        · intro j hj
          cases j with
          | zero => exact better_irrefl isMax _
          | succ j => exact hall j (Nat.lt_of_succ_lt_succ hj)
        · intro j hj
          exact absurd hj (Nat.not_lt_zero j)
      · subst hri
        refine Or.inr ⟨i + 1, Nat.succ_lt_succ hi, rfl,
          better_trans isMax hbx hb, ?_, ?_⟩
        · intro j hj
          cases j with
          | zero => exact better_asymm isMax hbx
          | succ j => exact hall j (Nat.lt_of_succ_lt_succ hj)
        · intro j hj
          cases j with
          | zero => exact hbx
          | succ j => exact hfirst j (Nat.lt_of_succ_lt_succ hj)
    | false =>
      obtain ⟨r, hr, hcase⟩ := ih x
      refine ⟨r, by simp [foldBest, hb, hr], ?_⟩
      rcases hcase with ⟨hrx, hall⟩ | ⟨i, hi, hri, hbx, hall, hfirst⟩
      · subst hrx
        refine Or.inl ⟨rfl, ?_⟩
        intro i hi
        cases i with
        | zero => exact hb
        | succ i => exact hall i (Nat.lt_of_succ_lt_succ hi)
      · subst hri
        refine Or.inr ⟨i + 1, Nat.succ_lt_succ hi, rfl, hbx, ?_, ?_⟩
        · intro j hj
          cases j with
          | zero => exact better_asymm isMax (better_of_not_of isMax hb hbx)
          | succ j => exact hall j (Nat.lt_of_succ_lt_succ hj)
        · intro j hj
          cases j with
          | zero => exact better_of_not_of isMax hb hbx
          | succ j => exact hfirst j (Nat.lt_of_succ_lt_succ hj)

theorem foldBest_none_char [LinearOrder P] {α : Type} (isMax : Bool)
    (l : List (α × P)) (hne : l ≠ []) :
    ∃ i, ∃ hi : i < l.length, foldBest isMax none l = some (l.get ⟨i, hi⟩) ∧
      (∀ j (hj : j < l.length),
        better isMax (l.get ⟨j, hj⟩).2 (l.get ⟨i, hi⟩).2 = false) ∧
      (∀ j (hj : j < i),
        better isMax (l.get ⟨i, hi⟩).2 (l.get ⟨j, Nat.lt_trans hj hi⟩).2 = true) := by
  cases l with
  | nil => exact absurd rfl hne
  | cons x rest =>
    obtain ⟨r, hr, hcase⟩ := foldBest_some_char isMax rest x
    have hfold : foldBest isMax none (x :: rest) = some r := by simp [foldBest, hr]
    rcases hcase with ⟨hrx, hall⟩ | ⟨i, hi, hri, hbx, hall, hfirst⟩
    · subst hrx
      refine ⟨0, Nat.succ_pos _, hfold, ?_,
        fun j hj => absurd hj (Nat.not_lt_zero j)⟩
      intro j hj
      cases j with
      | zero => exact better_irrefl isMax _
      | succ j => exact hall j (Nat.lt_of_succ_lt_succ hj)
    · subst hri
      refine ⟨i + 1, Nat.succ_lt_succ hi, hfold, ?_, ?_⟩
      · intro j hj
        cases j with
        | zero => exact better_asymm isMax hbx
        | succ j => exact hall j (Nat.lt_of_succ_lt_succ hj)
      · intro j hj
        cases j with
        | zero => exact hbx
        | succ j => exact hfirst j (Nat.lt_of_succ_lt_succ hj)

theorem skip_eq_not_better [LinearOrder P] (na ct : Actor) (isMax : Bool)
    (hiff : na = ct ↔ isMax = true) (v e : P) :
    (if na = ct then decide (v ≤ e) else decide (e ≤ v)) = !(better isMax v e) := by
  by_cases hna : na = ct
  · rw [hiff.mp hna]
    by_cases hv : v ≤ e
    · simp [hna, better, hv, not_lt.mpr hv]
    · simp [hna, better, hv, not_le.mp hv]
  · have hm : isMax = false := by
      cases hm2 : isMax
      · rfl
      · exact absurd (hiff.mpr hm2) hna
    rw [hm]
    by_cases hv : e ≤ v
    · simp [hna, better, hv, not_lt.mpr hv]
    · simp [hna, better, hv, not_le.mp hv]

theorem abLoopS_foldBest [LinearOrder P] (g : Game S A P)
    (rec : TreeNode S A P → Range P → TreeNode S A P) (na ct : Actor)
    (isMax : Bool) (hiff : na = ct ↔ isMax = true) :
    ∀ (acts : List A) (s : S) (cause : Option A)
      (acc : Option (TreeNode S A P × P)) (range : Range P),
      (abLoopS g rec na ct
        (match acc with
         | none => TreeNode.mk s cause none none
         | some ce => TreeNode.mk s cause (some ce.2) (some ce.1)) range acts).1 =
      (match foldBest isMax acc
          (abLoopS g rec na ct
            (match acc with
             | none => TreeNode.mk s cause none none
             | some ce => TreeNode.mk s cause (some ce.2) (some ce.1))
            range acts).2 with
       | none => TreeNode.mk s cause none none
       | some ce => TreeNode.mk s cause (some ce.2) (some ce.1)) := by
  intro acts
  induction acts with
  | nil => intro s cause acc range; cases acc <;> rfl
  | cons a rest ih =>
    intro s cause acc range
    cases acc with
    | none =>
      cases hcp : (rec (TreeNode.mk (g.translate_state s a) (some a) none none)
          range).payoff with
      | none =>
        have h1 : abLoopS g rec na ct (TreeNode.mk s cause none none) range
            (a :: rest) =
            abLoopS g rec na ct (TreeNode.mk s cause none none) range rest := by
          simp [abLoopS, hcp]
        rw [h1]
        exact ih s cause none range
      | some v =>
        cases htr : (if na = ct then Range.try_new v range.max
            else Range.try_new range.min v) with
        | some r =>
          have h1 : (abLoopS g rec na ct (TreeNode.mk s cause none none) range
              (a :: rest)).1 =
              (abLoopS g rec na ct (TreeNode.mk s cause (some v)
                (some (rec (TreeNode.mk (g.translate_state s a) (some a) none none)
                  range))) r rest).1 := by
            simp [abLoopS, hcp, htr]
          have h2 : (abLoopS g rec na ct (TreeNode.mk s cause none none) range
              (a :: rest)).2 =
              (rec (TreeNode.mk (g.translate_state s a) (some a) none none) range, v)
                :: (abLoopS g rec na ct (TreeNode.mk s cause (some v)
                  (some (rec (TreeNode.mk (g.translate_state s a) (some a) none none)
                    range))) r rest).2 := by
            simp [abLoopS, hcp, htr]
          rw [h1, h2]
          simp only [foldBest]
          exact ih s cause
            (some (rec (TreeNode.mk (g.translate_state s a) (some a) none none)
              range, v)) r
        | none =>
          have h1 : (abLoopS g rec na ct (TreeNode.mk s cause none none) range
              (a :: rest)).1 =
              TreeNode.mk s cause (some v)
                (some (rec (TreeNode.mk (g.translate_state s a) (some a) none none)
                  range)) := by
            simp [abLoopS, hcp, htr]
          have h2 : (abLoopS g rec na ct (TreeNode.mk s cause none none) range
              (a :: rest)).2 =
              [(rec (TreeNode.mk (g.translate_state s a) (some a) none none)
                range, v)] := by
            simp [abLoopS, hcp, htr]
          rw [h1, h2]
          simp [foldBest]
    | some ce =>
      cases hcp : (rec (TreeNode.mk (g.translate_state s a) (some a) none none)
          range).payoff with
      | none =>
        have h1 : abLoopS g rec na ct
            (TreeNode.mk s cause (some ce.2) (some ce.1)) range (a :: rest) =
            abLoopS g rec na ct
              (TreeNode.mk s cause (some ce.2) (some ce.1)) range rest := by
          simp [abLoopS, hcp]
        rw [h1]
        exact ih s cause (some ce) range
      | some v =>
        cases hsk : better isMax v ce.2 with
        | false =>
          have h1 : (abLoopS g rec na ct
              (TreeNode.mk s cause (some ce.2) (some ce.1)) range (a :: rest)).1 =
              (abLoopS g rec na ct
                (TreeNode.mk s cause (some ce.2) (some ce.1)) range rest).1 := by
            simp [abLoopS, hcp, skip_eq_not_better na ct isMax hiff v ce.2, hsk]
          have h2 : (abLoopS g rec na ct
              (TreeNode.mk s cause (some ce.2) (some ce.1)) range (a :: rest)).2 =
              (rec (TreeNode.mk (g.translate_state s a) (some a) none none) range, v)
                :: (abLoopS g rec na ct
                  (TreeNode.mk s cause (some ce.2) (some ce.1)) range rest).2 := by
            simp [abLoopS, hcp, skip_eq_not_better na ct isMax hiff v ce.2, hsk]
          rw [h1, h2]
          have h3 : foldBest isMax (some ce)
              ((rec (TreeNode.mk (g.translate_state s a) (some a) none none)
                range, v) :: (abLoopS g rec na ct
                  (TreeNode.mk s cause (some ce.2) (some ce.1)) range rest).2) =
              foldBest isMax (some ce) (abLoopS g rec na ct
                (TreeNode.mk s cause (some ce.2) (some ce.1)) range rest).2 := by
            simp [foldBest, hsk]
          rw [h3]
          exact ih s cause (some ce) range
        | true =>
          cases htr : (if na = ct then Range.try_new v range.max
              else Range.try_new range.min v) with
          | some r =>
            have h1 : (abLoopS g rec na ct
                (TreeNode.mk s cause (some ce.2) (some ce.1)) range (a :: rest)).1 =
                (abLoopS g rec na ct (TreeNode.mk s cause (some v)
                  (some (rec (TreeNode.mk (g.translate_state s a) (some a) none none)
                    range))) r rest).1 := by
              simp [abLoopS, hcp, skip_eq_not_better na ct isMax hiff v ce.2, hsk, htr]
            have h2 : (abLoopS g rec na ct
                (TreeNode.mk s cause (some ce.2) (some ce.1)) range (a :: rest)).2 =
                (rec (TreeNode.mk (g.translate_state s a) (some a) none none) range, v)
                  :: (abLoopS g rec na ct (TreeNode.mk s cause (some v)
                    (some (rec (TreeNode.mk (g.translate_state s a) (some a) none none)
                      range))) r rest).2 := by
              simp [abLoopS, hcp, skip_eq_not_better na ct isMax hiff v ce.2, hsk, htr]
            rw [h1, h2]
            have h3 : foldBest isMax (some ce)
                ((rec (TreeNode.mk (g.translate_state s a) (some a) none none)
                  range, v) :: (abLoopS g rec na ct (TreeNode.mk s cause (some v)
                    (some (rec (TreeNode.mk (g.translate_state s a) (some a) none none)
                      range))) r rest).2) =
                foldBest isMax
                  (some (rec (TreeNode.mk (g.translate_state s a) (some a) none none)
                    range, v))
                  (abLoopS g rec na ct (TreeNode.mk s cause (some v)
                    (some (rec (TreeNode.mk (g.translate_state s a) (some a) none none)
                      range))) r rest).2 := by
              simp [foldBest, hsk]
            rw [h3]
            exact ih s cause
              (some (rec (TreeNode.mk (g.translate_state s a) (some a) none none)
                range, v)) r
          | none =>
            have h1 : (abLoopS g rec na ct
                (TreeNode.mk s cause (some ce.2) (some ce.1)) range (a :: rest)).1 =
                TreeNode.mk s cause (some v)
                  (some (rec (TreeNode.mk (g.translate_state s a) (some a) none none)
                    range)) := by
              simp [abLoopS, hcp, skip_eq_not_better na ct isMax hiff v ce.2, hsk, htr]
            have h2 : (abLoopS g rec na ct
                (TreeNode.mk s cause (some ce.2) (some ce.1)) range (a :: rest)).2 =
                [(rec (TreeNode.mk (g.translate_state s a) (some a) none none)
                  range, v)] := by
              simp [abLoopS, hcp, skip_eq_not_better na ct isMax hiff v ce.2, hsk, htr]
            rw [h1, h2]
            simp [foldBest, hsk]

/-- C6: at every node, among the children the engine scores (those whose
recursive search returns a payoff), the retained child and the node's payoff
are those of the first child in enumeration order achieving the extremum of
the scored payoffs: maximum when the actor to move equals the searching
actor, minimum otherwise.  No scored child is strictly preferred to the
retained one (so a child that exactly ties never replaces it), and the
retained child is strictly preferred to every scored child before it. -/
theorem c6_first_found_extremum_retained [LinearOrder P] (g : Game S A P)
    (rec : TreeNode S A P → Range P → TreeNode S A P) (na ct : Actor)
    (acts : List A) (s : S) (cause : Option A) (range : Range P)
    (hne : (abLoopS g rec na ct (TreeNode.mk s cause none none) range acts).2 ≠ []) :
    ∃ i, ∃ hi : i <
        (abLoopS g rec na ct (TreeNode.mk s cause none none) range acts).2.length,
      (abLoopS g rec na ct (TreeNode.mk s cause none none) range acts).1.payoff =
        some (((abLoopS g rec na ct (TreeNode.mk s cause none none) range
          acts).2.get ⟨i, hi⟩).2) ∧
      (abLoopS g rec na ct (TreeNode.mk s cause none none) range acts).1.child =
        some (((abLoopS g rec na ct (TreeNode.mk s cause none none) range
          acts).2.get ⟨i, hi⟩).1) ∧
      (∀ j (hj : j <
          (abLoopS g rec na ct (TreeNode.mk s cause none none) range acts).2.length),
        better (decide (na = ct))
          (((abLoopS g rec na ct (TreeNode.mk s cause none none) range
            acts).2.get ⟨j, hj⟩).2)
          (((abLoopS g rec na ct (TreeNode.mk s cause none none) range
            acts).2.get ⟨i, hi⟩).2) = false) ∧
      (∀ j (hj : j < i),
        better (decide (na = ct))
          (((abLoopS g rec na ct (TreeNode.mk s cause none none) range
            acts).2.get ⟨i, hi⟩).2)
          (((abLoopS g rec na ct (TreeNode.mk s cause none none) range
            acts).2.get ⟨j, Nat.lt_trans hj hi⟩).2) = true) := by
  have hiff : na = ct ↔ decide (na = ct) = true := by simp
  have hmain : (abLoopS g rec na ct (TreeNode.mk s cause none none) range acts).1 =
      (match foldBest (decide (na = ct)) none
          (abLoopS g rec na ct (TreeNode.mk s cause none none) range acts).2 with
       | none => TreeNode.mk s cause none none
       | some ce => TreeNode.mk s cause (some ce.2) (some ce.1)) :=
    abLoopS_foldBest g rec na ct (decide (na = ct)) hiff acts s cause none range
  obtain ⟨i, hi, hfold, hall, hfirst⟩ :=
    foldBest_none_char (decide (na = ct))
      (abLoopS g rec na ct (TreeNode.mk s cause none none) range acts).2 hne
  refine ⟨i, hi, ?_, ?_, hall, hfirst⟩
  · rw [hmain, hfold]; rfl
  · rw [hmain, hfold]; rfl


theorem c6_witness :
    ((abLoopS gTiny (construct_best_game_tree_alpha_beta gTiny Actor.First 0)
        Actor.First Actor.First (TreeNode.mk 0 none none none) ⟨-100, 100⟩
        [(Actor.First, 1), (Actor.First, 2)]).2 ≠ []) ∧
    (∃ i, ∃ hi : i <
        (abLoopS gTiny (construct_best_game_tree_alpha_beta gTiny Actor.First 0)
          Actor.First Actor.First (TreeNode.mk 0 none none none) ⟨-100, 100⟩
          [(Actor.First, 1), (Actor.First, 2)]).2.length,
      (abLoopS gTiny (construct_best_game_tree_alpha_beta gTiny Actor.First 0)
        Actor.First Actor.First (TreeNode.mk 0 none none none) ⟨-100, 100⟩
        [(Actor.First, 1), (Actor.First, 2)]).1.payoff =
        some (((abLoopS gTiny (construct_best_game_tree_alpha_beta gTiny Actor.First 0)
          Actor.First Actor.First (TreeNode.mk 0 none none none) ⟨-100, 100⟩
          [(Actor.First, 1), (Actor.First, 2)]).2.get ⟨i, hi⟩).2) ∧
      (abLoopS gTiny (construct_best_game_tree_alpha_beta gTiny Actor.First 0)
        Actor.First Actor.First (TreeNode.mk 0 none none none) ⟨-100, 100⟩
        [(Actor.First, 1), (Actor.First, 2)]).1.child =
        some (((abLoopS gTiny (construct_best_game_tree_alpha_beta gTiny Actor.First 0)
          Actor.First Actor.First (TreeNode.mk 0 none none none) ⟨-100, 100⟩
          [(Actor.First, 1), (Actor.First, 2)]).2.get ⟨i, hi⟩).1) ∧
      (∀ j (hj : j <
          (abLoopS gTiny (construct_best_game_tree_alpha_beta gTiny Actor.First 0)
            Actor.First Actor.First (TreeNode.mk 0 none none none) ⟨-100, 100⟩
            [(Actor.First, 1), (Actor.First, 2)]).2.length),
        better (decide (Actor.First = Actor.First))
          (((abLoopS gTiny (construct_best_game_tree_alpha_beta gTiny Actor.First 0)
            Actor.First Actor.First (TreeNode.mk 0 none none none) ⟨-100, 100⟩
            [(Actor.First, 1), (Actor.First, 2)]).2.get ⟨j, hj⟩).2)
          (((abLoopS gTiny (construct_best_game_tree_alpha_beta gTiny Actor.First 0)
            Actor.First Actor.First (TreeNode.mk 0 none none none) ⟨-100, 100⟩
            [(Actor.First, 1), (Actor.First, 2)]).2.get ⟨i, hi⟩).2) = false) ∧
      (∀ j (hj : j < i),
        better (decide (Actor.First = Actor.First))
          (((abLoopS gTiny (construct_best_game_tree_alpha_beta gTiny Actor.First 0)
            Actor.First Actor.First (TreeNode.mk 0 none none none) ⟨-100, 100⟩
            [(Actor.First, 1), (Actor.First, 2)]).2.get ⟨i, hi⟩).2)
          (((abLoopS gTiny (construct_best_game_tree_alpha_beta gTiny Actor.First 0)
            Actor.First Actor.First (TreeNode.mk 0 none none none) ⟨-100, 100⟩
            [(Actor.First, 1), (Actor.First, 2)]).2.get
              ⟨j, Nat.lt_trans hj hi⟩).2) = true)) :=
  ⟨List.ne_nil_of_length_pos (by decide),
   c6_first_found_extremum_retained gTiny
     (construct_best_game_tree_alpha_beta gTiny Actor.First 0) Actor.First
     Actor.First [(Actor.First, 1), (Actor.First, 2)] 0 none ⟨-100, 100⟩
     (List.ne_nil_of_length_pos (by decide))⟩

theorem try_new_eq_some [LinearOrder P] {lo hi : P} {r : Range P}
    (h : Range.try_new lo hi = some r) : lo ≤ hi ∧ r = ⟨lo, hi⟩ := by
  unfold Range.try_new at h
  split at h
  · exact ⟨by assumption, (Option.some_inj.mp h).symm⟩
  · exact Option.noConfusion h

theorem try_new_eq_none [LinearOrder P] {lo hi : P}
    (h : Range.try_new lo hi = none) : ¬ lo ≤ hi := by
  unfold Range.try_new at h
  split at h
  · exact Option.noConfusion h
  · assumption

theorem valFold_max_le [LinearOrder P] :
    ∀ (l : List P) (a : P), ∃ m, valFold true (some a) l = some m ∧ a ≤ m := by
  intro l
  induction l with
  | nil => intro a; exact ⟨a, rfl, le_rfl⟩
  | cons v l ih =>
    intro a
    cases hb : better true v a with
    | true =>
      obtain ⟨m, hm, hvm⟩ := ih v
      have hav : a < v := by simpa [better] using hb
      exact ⟨m, by simp [valFold, hb, hm], le_trans (le_of_lt hav) hvm⟩
    | false =>
      obtain ⟨m, hm, ham⟩ := ih a
      exact ⟨m, by simp [valFold, hb, hm], ham⟩

theorem valFold_min_le [LinearOrder P] :
    ∀ (l : List P) (a : P), ∃ m, valFold false (some a) l = some m ∧ m ≤ a := by
  intro l
  induction l with
  | nil => intro a; exact ⟨a, rfl, le_rfl⟩
  | cons v l ih =>
    intro a
    cases hb : better false v a with
    | true =>
      obtain ⟨m, hm, hvm⟩ := ih v
      have hav : v < a := by simpa [better] using hb
      exact ⟨m, by simp [valFold, hb, hm], le_trans hvm (le_of_lt hav)⟩
    | false =>
      obtain ⟨m, hm, ham⟩ := ih a
      exact ⟨m, by simp [valFold, hb, hm], ham⟩

theorem valFold_mem [LinearOrder P] (b : Bool) :
    ∀ (l : List P) (a m : P), valFold b (some a) l = some m → m = a ∨ m ∈ l := by
  intro l
  induction l with
  | nil => intro a m h; exact Or.inl (Option.some_inj.mp h).symm
  | cons v l ih =>
    intro a m h
    cases hb : better b v a with
    | true =>
      rw [valFold, hb] at h
      simp only [if_true] at h
      rcases ih v m h with h1 | h2
      · exact Or.inr (h1 ▸ List.mem_cons_self v l)
      · exact Or.inr (List.mem_cons_of_mem v h2)
    | false =>
      rw [valFold, hb] at h
      simp only [Bool.false_eq_true, if_false] at h
      rcases ih a m h with h1 | h2
      · exact Or.inl h1
      · exact Or.inr (List.mem_cons_of_mem v h2)

theorem mmLoop_pres [LinearOrder P] (g : Game S A P)
    (rec : TreeNode S A P → TreeNode S A P) (na ct : Actor) :
    ∀ (acts : List A) (node : TreeNode S A P),
      (mmLoop g rec na ct node acts).state = node.state ∧
      (mmLoop g rec na ct node acts).cause_action = node.cause_action := by
  intro acts
  induction acts with
  | nil => intro node; exact ⟨rfl, rfl⟩
  | cons a rest ih =>
    intro node
    simp only [mmLoop]
    split
    · exact ih node
    · repeat' split
      all_goals first
      | exact ih node
      | simpa using ih _

theorem cbgtFull_pres [LinearOrder P] (g : Game S A P) (ct : Actor) :
    ∀ (d : Nat) (node : TreeNode S A P),
      (construct_best_game_tree_full g ct d node).state = node.state ∧
      (construct_best_game_tree_full g ct d node).cause_action =
        node.cause_action := by
  intro d
  induction d with
  | zero => intro node; exact ⟨rfl, rfl⟩
  | succ d ih =>
    intro node
    simp only [construct_best_game_tree_full]
    split
    · exact ⟨rfl, rfl⟩
    · exact mmLoop_pres g _ _ ct _ node

theorem cbgtFull_cause [LinearOrder P] (g : Game S A P) (ct : Actor)
    (d : Nat) (node : TreeNode S A P) :
    (construct_best_game_tree_full g ct d node).cause_action =
      node.cause_action :=
  (cbgtFull_pres g ct d node).2

theorem mmLoopVal [LinearOrder P] (g : Game S A P) (na ct : Actor) (isMax : Bool)
    (hiff : na = ct ↔ isMax = true)
    (rec : TreeNode S A P → TreeNode S A P) (tv : A → Option P) (s : S)
    (HB : ∀ a, (rec (TreeNode.mk (g.translate_state s a) (some a) none none)).payoff
      = tv a) :
    ∀ (acts : List A) (cause : Option A) (e : Option P)
      (cOld : Option (TreeNode S A P)),
      (mmLoop g rec na ct (TreeNode.mk s cause e cOld) acts).payoff =
        valFold isMax e (acts.filterMap tv) := by
  intro acts
  induction acts with
  | nil => intro cause e cOld; rfl
  | cons a rest ih =>
    intro cause e cOld
    cases htv : tv a with
    | none =>
      have hcp : (rec (TreeNode.mk (g.translate_state s a) (some a) none none)).payoff
          = none := by rw [HB a, htv]
      have hstep : mmLoop g rec na ct (TreeNode.mk s cause e cOld) (a :: rest) =
          mmLoop g rec na ct (TreeNode.mk s cause e cOld) rest := by
        simp [mmLoop, hcp]
      have hfm : (a :: rest).filterMap tv = rest.filterMap tv := by simp [htv]
      rw [hstep, hfm]
      exact ih cause e cOld
    | some v =>
      have hcp : (rec (TreeNode.mk (g.translate_state s a) (some a) none none)).payoff
          = some v := by rw [HB a, htv]
      have hfm : (a :: rest).filterMap tv = v :: rest.filterMap tv := by simp [htv]
      rw [hfm]
      cases e with
      | none =>
        have hstep : mmLoop g rec na ct (TreeNode.mk s cause none cOld) (a :: rest) =
            mmLoop g rec na ct (TreeNode.mk s cause (some v)
              (some (rec (TreeNode.mk (g.translate_state s a) (some a) none none))))
              rest := by
          simp [mmLoop, hcp]
        rw [hstep]
        have hf : valFold isMax none (v :: rest.filterMap tv) =
            valFold isMax (some v) (rest.filterMap tv) := by simp [valFold]
        rw [hf]
        exact ih cause (some v) _
      | some e0 =>
        cases hb : better isMax v e0 with
        | false =>
          have hstep : mmLoop g rec na ct (TreeNode.mk s cause (some e0) cOld)
              (a :: rest) =
              mmLoop g rec na ct (TreeNode.mk s cause (some e0) cOld) rest := by
            simp [mmLoop, hcp, skip_eq_not_better na ct isMax hiff v e0, hb]
          rw [hstep]
          have hf : valFold isMax (some e0) (v :: rest.filterMap tv) =
              valFold isMax (some e0) (rest.filterMap tv) := by simp [valFold, hb]
          rw [hf]
          exact ih cause (some e0) cOld
        | true =>
          have hstep : mmLoop g rec na ct (TreeNode.mk s cause (some e0) cOld)
              (a :: rest) =
              mmLoop g rec na ct (TreeNode.mk s cause (some v)
                (some (rec (TreeNode.mk (g.translate_state s a) (some a) none none))))
                rest := by
            simp [mmLoop, hcp, skip_eq_not_better na ct isMax hiff v e0, hb]
          rw [hstep]
          have hf : valFold isMax (some e0) (v :: rest.filterMap tv) =
              valFold isMax (some v) (rest.filterMap tv) := by simp [valFold, hb]
          rw [hf]
          exact ih cause (some v) _

theorem cbgtFull_payoff [LinearOrder P] (g : Game S A P) (ct : Actor) :
    ∀ (d : Nat) (cause : Option A) (s : S),
      (construct_best_game_tree_full g ct d (TreeNode.mk s cause none none)).payoff
        = mmValue g ct d cause s := by
  intro d
  induction d with
  | zero => intro cause s; rfl
  | succ d ih =>
    intro cause s
    cases hgo : g.is_game_over s with
    | true => simp [construct_best_game_tree_full, mmValue, hgo, leafEval]
    | false =>
      have h1 : construct_best_game_tree_full g ct (d + 1)
          (TreeNode.mk s cause none none) =
          mmLoop g (construct_best_game_tree_full g ct d)
            (nextActorOf g ct cause) ct (TreeNode.mk s cause none none)
            (g.iterate_available_actions s (nextActorOf g ct cause)) := by
        simp [construct_best_game_tree_full, hgo]
      rw [h1]
      rw [mmLoopVal g (nextActorOf g ct cause) ct
        (decide (nextActorOf g ct cause = ct)) (by simp)
        (construct_best_game_tree_full g ct d)
        (fun a => mmValue g ct d (some a) (g.translate_state s a)) s
        (fun a => ih (some a) (g.translate_state s a))
        (g.iterate_available_actions s (nextActorOf g ct cause)) cause none none]
      simp [mmValue, hgo]

theorem mmValue_bounds [LinearOrder P] (g : Game S A P) (ct : Actor)
    (hb : ∀ (act : Actor) (s : S), g.min_value ≤ g.evaluate_payoff_for act s ∧
      g.evaluate_payoff_for act s ≤ g.max_value) :
    ∀ (d : Nat) (cause : Option A) (s : S) (t : P),
      mmValue g ct d cause s = some t →
      g.min_value ≤ t ∧ t ≤ g.max_value := by
  intro d
  induction d with
  | zero =>
    intro cause s t h
    simp only [mmValue, Option.some_inj] at h
    exact h ▸ hb ct s
  | succ d ih =>
    intro cause s t h
    cases hgo : g.is_game_over s with
    | true =>
      simp only [mmValue, hgo, if_true] at h
      simp only [Option.some_inj] at h
      exact h ▸ hb ct s
    | false =>
      simp only [mmValue, hgo, Bool.false_eq_true, if_false] at h
      cases hl : (g.iterate_available_actions s (nextActorOf g ct cause)).filterMap
          (fun a => mmValue g ct d (some a) (g.translate_state s a)) with
      | nil => rw [hl] at h; exact Option.noConfusion h
      | cons x xs =>
        rw [hl] at h
        have hstep : valFold (decide (nextActorOf g ct cause = ct)) none (x :: xs) =
            valFold (decide (nextActorOf g ct cause = ct)) (some x) xs := by
          simp [valFold]
        rw [hstep] at h
        have hmem : t ∈ (g.iterate_available_actions s
            (nextActorOf g ct cause)).filterMap
            (fun a => mmValue g ct d (some a) (g.translate_state s a)) := by
          rw [hl]
          rcases valFold_mem _ xs x t h with h1 | h2
          · exact h1 ▸ List.mem_cons_self x xs
          · exact List.mem_cons_of_mem x h2
        rcases List.mem_filterMap.mp hmem with ⟨a, _, hma⟩
        exact ih (some a) (g.translate_state s a) t hma

theorem loopFS_max [LinearOrder P] (g : Game S A P) (ct : Actor)
    (rec : TreeNode S A P → Range P → TreeNode S A P) (tv : A → Option P)
    (s : S) (cause : Option A) (H lo0 : P)
    (HF : ∀ (a : A) (lo hi : P),
      (((rec (TreeNode.mk (g.translate_state s a) (some a) none none)
          ⟨lo, hi⟩).payoff = none) ↔ tv a = none) ∧
      (∀ v t, (rec (TreeNode.mk (g.translate_state s a) (some a) none none)
          ⟨lo, hi⟩).payoff = some v → tv a = some t →
        min t hi ≤ v ∧ v ≤ max t lo)) :
    ∀ (acts : List A) (e : Option P) (cOld : Option (TreeNode S A P)) (L : P)
      (T : Option P),
      ((e = none ∧ T = none ∧ L = lo0) ∨
       (∃ a0 t0, e = some a0 ∧ T = some t0 ∧ L = a0 ∧
         min t0 H ≤ a0 ∧ a0 ≤ max t0 lo0)) →
      (((abLoop g rec ct ct (TreeNode.mk s cause e cOld) ⟨L, H⟩ acts).payoff = none)
        ↔ valFold true T (acts.filterMap tv) = none) ∧
      (∀ v t,
        (abLoop g rec ct ct (TreeNode.mk s cause e cOld) ⟨L, H⟩ acts).payoff
          = some v →
        valFold true T (acts.filterMap tv) = some t →
        min t H ≤ v ∧ v ≤ max t lo0) := by
  intro acts
  induction acts with
  | nil =>
    intro e cOld L T hInv
    rcases hInv with ⟨he, hT, hL⟩ | ⟨a0, t0, he, hT, hL, h1, h2⟩
    · subst he; subst hT; subst hL
      exact ⟨by simp [abLoop, valFold],
        fun v t hv ht => by simp [abLoop] at hv⟩
    · subst he; subst hT; subst hL
      refine ⟨by simp [abLoop, valFold], ?_⟩
      intro v t hv ht
      simp only [abLoop, TreeNode.payoff_mk, Option.some_inj] at hv
      simp only [valFold, Option.some_inj] at ht
      subst hv; subst ht
      exact ⟨h1, h2⟩
  | cons a rest ih =>
    intro e cOld L T hInv
    have hfa := HF a L H
    cases hcp : (rec (TreeNode.mk (g.translate_state s a) (some a) none none)
        ⟨L, H⟩).payoff with
    | none =>
      have htv : tv a = none := (hfa.1).mp hcp
      have hstep : abLoop g rec ct ct (TreeNode.mk s cause e cOld) ⟨L, H⟩
          (a :: rest) =
          abLoop g rec ct ct (TreeNode.mk s cause e cOld) ⟨L, H⟩ rest := by
        simp [abLoop, hcp]
      have hfm : (a :: rest).filterMap tv = rest.filterMap tv := by simp [htv]
      rw [hstep, hfm]
      exact ih e cOld L T hInv
    | some v =>
      obtain ⟨t1, ht1⟩ : ∃ t1, tv a = some t1 := by
        cases htv : tv a
        · exact absurd ((hfa.1).mpr htv) (by simp [hcp])
        · exact ⟨_, rfl⟩
      have hbnd := hfa.2 v t1 hcp ht1
      have hfm : (a :: rest).filterMap tv = t1 :: rest.filterMap tv := by
        simp [ht1]
      rw [hfm]
      rcases hInv with ⟨he, hT, hL⟩ | ⟨a0, t0, he, hT, hL, h1, h2⟩
      · subst he; subst hT
        have hL2 := hL.symm
        subst hL2
        have hf : valFold true none (t1 :: rest.filterMap tv) =
            valFold true (some t1) (rest.filterMap tv) := by simp [valFold]
        rw [hf]
        by_cases hvH : v ≤ H
        · have hstep : abLoop g rec ct ct (TreeNode.mk s cause none cOld)
              ⟨lo0, H⟩ (a :: rest) =
              abLoop g rec ct ct (TreeNode.mk s cause (some v)
                (some (rec (TreeNode.mk (g.translate_state s a) (some a) none none)
                  ⟨lo0, H⟩))) ⟨v, H⟩ rest := by
            simp [abLoop, hcp, Range.try_new, hvH]
          rw [hstep]
          exact ih (some v) _ v (some t1)
            (Or.inr ⟨v, t1, rfl, rfl, rfl, hbnd.1, hbnd.2⟩)
        · have hstep : (abLoop g rec ct ct (TreeNode.mk s cause none cOld)
              ⟨lo0, H⟩ (a :: rest)).payoff = some v := by
            simp [abLoop, hcp, Range.try_new, hvH]
          obtain ⟨m, hm, ht1m⟩ := valFold_max_le (rest.filterMap tv) t1
          rw [hstep, hm]
          refine ⟨by simp, ?_⟩
          intro v' t' hv' ht'
          injection hv' with hv'
          injection ht' with ht'
          subst hv'; subst ht'
          constructor
          · exact le_trans (min_le_right _ H) (le_of_lt (not_le.mp hvH))
          · exact le_trans hbnd.2 (max_le_max ht1m le_rfl)
      · subst he; subst hT
        have hL2 := hL.symm
        subst hL2
        by_cases hskip : v ≤ a0
        · have hstep : abLoop g rec ct ct (TreeNode.mk s cause (some a0) cOld)
              ⟨a0, H⟩ (a :: rest) =
              abLoop g rec ct ct (TreeNode.mk s cause (some a0) cOld) ⟨a0, H⟩
                rest := by
            simp [abLoop, hcp, hskip]
          rw [hstep]
          cases hbt : better true t1 t0 with
          | false =>
            have hf : valFold true (some t0) (t1 :: rest.filterMap tv) =
                valFold true (some t0) (rest.filterMap tv) := by
              simp [valFold, hbt]
            rw [hf]
            exact ih (some a0) cOld a0 (some t0)
              (Or.inr ⟨a0, t0, rfl, rfl, rfl, h1, h2⟩)
          | true =>
            have ht01 : t0 < t1 := by simpa [better] using hbt
            have hf : valFold true (some t0) (t1 :: rest.filterMap tv) =
                valFold true (some t1) (rest.filterMap tv) := by
              simp [valFold, hbt]
            rw [hf]
            refine ih (some a0) cOld a0 (some t1)
              (Or.inr ⟨a0, t1, rfl, rfl, rfl, ?_, ?_⟩)
            · exact le_trans hbnd.1 hskip
            · exact le_trans h2 (max_le_max (le_of_lt ht01) le_rfl)
        · have hav : a0 < v := not_le.mp hskip
          have hvt1 : v ≤ t1 := by
            rcases le_max_iff.mp hbnd.2 with h | h
            · exact h
            · exact absurd h hskip
          by_cases hvH : v ≤ H
          · have hstep : abLoop g rec ct ct (TreeNode.mk s cause (some a0) cOld)
                ⟨a0, H⟩ (a :: rest) =
                abLoop g rec ct ct (TreeNode.mk s cause (some v)
                  (some (rec (TreeNode.mk (g.translate_state s a) (some a) none
                    none) ⟨a0, H⟩))) ⟨v, H⟩ rest := by
              simp [abLoop, hcp, hskip, Range.try_new, hvH]
            rw [hstep]
            cases hbt : better true t1 t0 with
            | true =>
              have hf : valFold true (some t0) (t1 :: rest.filterMap tv) =
                  valFold true (some t1) (rest.filterMap tv) := by
                simp [valFold, hbt]
              rw [hf]
              refine ih (some v) _ v (some t1)
                (Or.inr ⟨v, t1, rfl, rfl, rfl, hbnd.1, ?_⟩)
              exact le_trans hvt1 (le_max_left t1 lo0)
            | false =>
              have ht10 : t1 ≤ t0 := by simpa [better, not_lt] using hbt
              have hf : valFold true (some t0) (t1 :: rest.filterMap tv) =
                  valFold true (some t0) (rest.filterMap tv) := by
                simp [valFold, hbt]
              rw [hf]
              refine ih (some v) _ v (some t0)
                (Or.inr ⟨v, t0, rfl, rfl, rfl, ?_, ?_⟩)
              · exact le_trans h1 (le_of_lt hav)
              · exact le_trans (le_trans hvt1 ht10) (le_max_left t0 lo0)
          · have hstep : (abLoop g rec ct ct (TreeNode.mk s cause (some a0) cOld)
                ⟨a0, H⟩ (a :: rest)).payoff = some v := by
              simp [abLoop, hcp, hskip, Range.try_new, hvH]
            cases hbt : better true t1 t0 with
            | true =>
              obtain ⟨m, hm, htm⟩ := valFold_max_le (rest.filterMap tv) t1
              have hf : valFold true (some t0) (t1 :: rest.filterMap tv) =
                  valFold true (some t1) (rest.filterMap tv) := by
                simp [valFold, hbt]
              rw [hstep, hf, hm]
              refine ⟨by simp, ?_⟩
              intro v' t' hv' ht'
              injection hv' with hv'
              injection ht' with ht'
              subst hv'; subst ht'
              constructor
              · exact le_trans (min_le_right _ H) (le_of_lt (not_le.mp hvH))
              · exact le_trans (le_trans hvt1 htm) (le_max_left m lo0)
            | false =>
              have ht10 : t1 ≤ t0 := by simpa [better, not_lt] using hbt
              obtain ⟨m, hm, htm⟩ := valFold_max_le (rest.filterMap tv) t0
              have hf : valFold true (some t0) (t1 :: rest.filterMap tv) =
                  valFold true (some t0) (rest.filterMap tv) := by
                simp [valFold, hbt]
              rw [hstep, hf, hm]
              refine ⟨by simp, ?_⟩
              intro v' t' hv' ht'
              injection hv' with hv'
              injection ht' with ht'
              subst hv'; subst ht'
              constructor
              · exact le_trans (min_le_right _ H) (le_of_lt (not_le.mp hvH))
              · exact le_trans (le_trans (le_trans hvt1 ht10) htm)
                  (le_max_left m lo0)

theorem loopFS_min [LinearOrder P] (g : Game S A P) (na ct : Actor)
    (hna : na ≠ ct)
    (rec : TreeNode S A P → Range P → TreeNode S A P) (tv : A → Option P)
    (s : S) (cause : Option A) (lo0 hi0 : P)
    (HF : ∀ (a : A) (lo hi : P),
      (((rec (TreeNode.mk (g.translate_state s a) (some a) none none)
          ⟨lo, hi⟩).payoff = none) ↔ tv a = none) ∧
      (∀ v t, (rec (TreeNode.mk (g.translate_state s a) (some a) none none)
          ⟨lo, hi⟩).payoff = some v → tv a = some t →
        min t hi ≤ v ∧ v ≤ max t lo)) :
    ∀ (acts : List A) (e : Option P) (cOld : Option (TreeNode S A P)) (H : P)
      (T : Option P),
      ((e = none ∧ T = none ∧ H = hi0) ∨
       (∃ a0 t0, e = some a0 ∧ T = some t0 ∧ H = a0 ∧
         min t0 hi0 ≤ a0 ∧ a0 ≤ max t0 lo0)) →
      (((abLoop g rec na ct (TreeNode.mk s cause e cOld) ⟨lo0, H⟩ acts).payoff
          = none)
        ↔ valFold false T (acts.filterMap tv) = none) ∧
      (∀ v t,
        (abLoop g rec na ct (TreeNode.mk s cause e cOld) ⟨lo0, H⟩ acts).payoff
          = some v →
        valFold false T (acts.filterMap tv) = some t →
        min t hi0 ≤ v ∧ v ≤ max t lo0) := by
  intro acts
  induction acts with
  | nil =>
    intro e cOld H T hInv
    rcases hInv with ⟨he, hT, hH⟩ | ⟨a0, t0, he, hT, hH, h1, h2⟩
    · subst he; subst hT
      exact ⟨by simp [abLoop, valFold],
        fun v t hv ht => by simp [abLoop] at hv⟩
    · subst he; subst hT
      refine ⟨by simp [abLoop, valFold], ?_⟩
      intro v t hv ht
      simp only [abLoop, TreeNode.payoff_mk, Option.some_inj] at hv
      simp only [valFold, Option.some_inj] at ht
      subst hv; subst ht
      exact ⟨h1, h2⟩
  | cons a rest ih =>
    intro e cOld H T hInv
    have hfa := HF a lo0 H
    cases hcp : (rec (TreeNode.mk (g.translate_state s a) (some a) none none)
        ⟨lo0, H⟩).payoff with
    | none =>
      have htv : tv a = none := (hfa.1).mp hcp
      have hstep : abLoop g rec na ct (TreeNode.mk s cause e cOld) ⟨lo0, H⟩
          (a :: rest) =
          abLoop g rec na ct (TreeNode.mk s cause e cOld) ⟨lo0, H⟩ rest := by
        simp [abLoop, hcp]
      have hfm : (a :: rest).filterMap tv = rest.filterMap tv := by simp [htv]
      rw [hstep, hfm]
      exact ih e cOld H T hInv
    | some v =>
      obtain ⟨t1, ht1⟩ : ∃ t1, tv a = some t1 := by
        cases htv : tv a
        · exact absurd ((hfa.1).mpr htv) (by simp [hcp])
        · exact ⟨_, rfl⟩
      have hbnd := hfa.2 v t1 hcp ht1
      have hfm : (a :: rest).filterMap tv = t1 :: rest.filterMap tv := by
        simp [ht1]
      rw [hfm]
      rcases hInv with ⟨he, hT, hH⟩ | ⟨a0, t0, he, hT, hH, h1, h2⟩
      · subst he; subst hT
        have hH2 := hH.symm
        subst hH2
        have hf : valFold false none (t1 :: rest.filterMap tv) =
            valFold false (some t1) (rest.filterMap tv) := by simp [valFold]
        rw [hf]
        by_cases hvL : lo0 ≤ v
        · have hstep : abLoop g rec na ct (TreeNode.mk s cause none cOld)
              ⟨lo0, hi0⟩ (a :: rest) =
              abLoop g rec na ct (TreeNode.mk s cause (some v)
                (some (rec (TreeNode.mk (g.translate_state s a) (some a) none none)
                  ⟨lo0, hi0⟩))) ⟨lo0, v⟩ rest := by
            simp [abLoop, hcp, hna, Range.try_new, hvL]
          rw [hstep]
          exact ih (some v) _ v (some t1)
            (Or.inr ⟨v, t1, rfl, rfl, rfl, hbnd.1, hbnd.2⟩)
        · have hstep : (abLoop g rec na ct (TreeNode.mk s cause none cOld)
              ⟨lo0, hi0⟩ (a :: rest)).payoff = some v := by
            simp [abLoop, hcp, hna, Range.try_new, hvL]
          obtain ⟨m, hm, hmt1⟩ := valFold_min_le (rest.filterMap tv) t1
          rw [hstep, hm]
          refine ⟨by simp, ?_⟩
          intro v' t' hv' ht'
          injection hv' with hv'
          injection ht' with ht'
          subst hv'; subst ht'
          constructor
          · exact le_trans (min_le_min hmt1 le_rfl) hbnd.1
          · exact le_trans (le_of_lt (not_le.mp hvL)) (le_max_right m lo0)
      · subst he; subst hT
        have hH2 := hH.symm
        subst hH2
        by_cases hskip : a0 ≤ v
        · have hstep : abLoop g rec na ct (TreeNode.mk s cause (some a0) cOld)
              ⟨lo0, a0⟩ (a :: rest) =
              abLoop g rec na ct (TreeNode.mk s cause (some a0) cOld) ⟨lo0, a0⟩
                rest := by
            simp [abLoop, hcp, hna, hskip]
          rw [hstep]
          cases hbt : better false t1 t0 with
          | false =>
            have hf : valFold false (some t0) (t1 :: rest.filterMap tv) =
                valFold false (some t0) (rest.filterMap tv) := by
              simp [valFold, hbt]
            rw [hf]
            exact ih (some a0) cOld a0 (some t0)
              (Or.inr ⟨a0, t0, rfl, rfl, rfl, h1, h2⟩)
          | true =>
            have ht10 : t1 < t0 := by simpa [better] using hbt
            have hf : valFold false (some t0) (t1 :: rest.filterMap tv) =
                valFold false (some t1) (rest.filterMap tv) := by
              simp [valFold, hbt]
            rw [hf]
            refine ih (some a0) cOld a0 (some t1)
              (Or.inr ⟨a0, t1, rfl, rfl, rfl, ?_, ?_⟩)
            · exact le_trans (min_le_min (le_of_lt ht10) le_rfl) h1
            · exact le_trans hskip hbnd.2
        · have hva : v < a0 := not_le.mp hskip
          have ht1v : t1 ≤ v := by
            rcases min_le_iff.mp hbnd.1 with h | h
            · exact h
            · exact absurd h hskip
          by_cases hvL : lo0 ≤ v
          · have hstep : abLoop g rec na ct (TreeNode.mk s cause (some a0) cOld)
                ⟨lo0, a0⟩ (a :: rest) =
                abLoop g rec na ct (TreeNode.mk s cause (some v)
                  (some (rec (TreeNode.mk (g.translate_state s a) (some a) none
                    none) ⟨lo0, a0⟩))) ⟨lo0, v⟩ rest := by
              simp [abLoop, hcp, hna, hskip, Range.try_new, hvL]
            rw [hstep]
            cases hbt : better false t1 t0 with
            | true =>
              have hf : valFold false (some t0) (t1 :: rest.filterMap tv) =
                  valFold false (some t1) (rest.filterMap tv) := by
                simp [valFold, hbt]
              rw [hf]
              refine ih (some v) _ v (some t1)
                (Or.inr ⟨v, t1, rfl, rfl, rfl, ?_, hbnd.2⟩)
              exact le_trans (min_le_left t1 hi0) ht1v
            | false =>
              have ht01 : t0 ≤ t1 := by simpa [better, not_lt] using hbt
              have hf : valFold false (some t0) (t1 :: rest.filterMap tv) =
                  valFold false (some t0) (rest.filterMap tv) := by
                simp [valFold, hbt]
              rw [hf]
              refine ih (some v) _ v (some t0)
                (Or.inr ⟨v, t0, rfl, rfl, rfl, ?_, ?_⟩)
              · exact le_trans (min_le_left t0 hi0) (le_trans ht01 ht1v)
              · exact le_trans (le_of_lt hva) h2
          · have hstep : (abLoop g rec na ct (TreeNode.mk s cause (some a0) cOld)
                ⟨lo0, a0⟩ (a :: rest)).payoff = some v := by
              simp [abLoop, hcp, hna, hskip, Range.try_new, hvL]
            cases hbt : better false t1 t0 with
            | true =>
              obtain ⟨m, hm, hmt⟩ := valFold_min_le (rest.filterMap tv) t1
              have hf : valFold false (some t0) (t1 :: rest.filterMap tv) =
                  valFold false (some t1) (rest.filterMap tv) := by
                simp [valFold, hbt]
              rw [hstep, hf, hm]
              refine ⟨by simp, ?_⟩
              intro v' t' hv' ht'
              injection hv' with hv'
              injection ht' with ht'
              subst hv'; subst ht'
              constructor
              · exact le_trans (min_le_left m hi0) (le_trans hmt ht1v)
              · exact le_trans (le_of_lt (not_le.mp hvL)) (le_max_right m lo0)
            | false =>
              have ht01 : t0 ≤ t1 := by simpa [better, not_lt] using hbt
              obtain ⟨m, hm, hmt⟩ := valFold_min_le (rest.filterMap tv) t0
              have hf : valFold false (some t0) (t1 :: rest.filterMap tv) =
                  valFold false (some t0) (rest.filterMap tv) := by
                simp [valFold, hbt]
              rw [hstep, hf, hm]
              refine ⟨by simp, ?_⟩
              intro v' t' hv' ht'
              injection hv' with hv'
              injection ht' with ht'
              subst hv'; subst ht'
              constructor
              · exact le_trans (min_le_left m hi0)
                  (le_trans hmt (le_trans ht01 ht1v))
              · exact le_trans (le_of_lt (not_le.mp hvL)) (le_max_right m lo0)

theorem failSoft [LinearOrder P] (g : Game S A P) (ct : Actor) :
    ∀ (d : Nat) (cause : Option A) (s : S) (lo hi : P),
      (((construct_best_game_tree_alpha_beta g ct d (TreeNode.mk s cause none none)
          ⟨lo, hi⟩).payoff = none) ↔ mmValue g ct d cause s = none) ∧
      (∀ v t, (construct_best_game_tree_alpha_beta g ct d
          (TreeNode.mk s cause none none) ⟨lo, hi⟩).payoff = some v →
        mmValue g ct d cause s = some t → min t hi ≤ v ∧ v ≤ max t lo) := by
  intro d
  induction d with
  | zero =>
    intro cause s lo hi
    refine ⟨by simp [construct_best_game_tree_alpha_beta, leafEval, mmValue], ?_⟩
    intro v t hv ht
    simp only [construct_best_game_tree_alpha_beta, leafEval, TreeNode.payoff_mk,
      TreeNode.state_mk, Option.some_inj] at hv
    simp only [mmValue, Option.some_inj] at ht
    subst hv; subst ht
    exact ⟨min_le_left _ _, le_max_left _ _⟩
  | succ d ih =>
    intro cause s lo hi
    cases hgo : g.is_game_over s with
    | true =>
      refine ⟨by simp [construct_best_game_tree_alpha_beta, leafEval, mmValue,
        hgo], ?_⟩
      intro v t hv ht
      simp only [construct_best_game_tree_alpha_beta, TreeNode.state_mk, hgo,
        if_true, leafEval, TreeNode.payoff_mk, Option.some_inj] at hv
      simp only [mmValue, hgo, if_true, Option.some_inj] at ht
      subst hv; subst ht
      exact ⟨min_le_left _ _, le_max_left _ _⟩
    | false =>
      have hstep : construct_best_game_tree_alpha_beta g ct (d + 1)
          (TreeNode.mk s cause none none) ⟨lo, hi⟩ =
          abLoop g (construct_best_game_tree_alpha_beta g ct d)
            (nextActorOf g ct cause) ct (TreeNode.mk s cause none none) ⟨lo, hi⟩
            (g.iterate_available_actions s (nextActorOf g ct cause)) := by
        simp [construct_best_game_tree_alpha_beta, hgo]
      have hmm : mmValue g ct (d + 1) cause s =
          valFold (decide (nextActorOf g ct cause = ct)) none
            ((g.iterate_available_actions s (nextActorOf g ct cause)).filterMap
              fun a => mmValue g ct d (some a) (g.translate_state s a)) := by
        simp [mmValue, hgo]
      rw [hstep, hmm]
      have HF : ∀ (a : A) (lo' hi' : P),
          (((construct_best_game_tree_alpha_beta g ct d
              (TreeNode.mk (g.translate_state s a) (some a) none none)
              ⟨lo', hi'⟩).payoff = none) ↔
            mmValue g ct d (some a) (g.translate_state s a) = none) ∧
          (∀ v t, (construct_best_game_tree_alpha_beta g ct d
              (TreeNode.mk (g.translate_state s a) (some a) none none)
              ⟨lo', hi'⟩).payoff = some v →
            mmValue g ct d (some a) (g.translate_state s a) = some t →
            min t hi' ≤ v ∧ v ≤ max t lo') :=
        fun a lo' hi' => ih (some a) (g.translate_state s a) lo' hi'
      by_cases hna : nextActorOf g ct cause = ct
      · rw [hna]
        have hd : decide (ct = ct) = true := decide_eq_true rfl
        rw [hd]
        exact loopFS_max g ct (construct_best_game_tree_alpha_beta g ct d)
          (fun a => mmValue g ct d (some a) (g.translate_state s a)) s cause hi lo
          HF (g.iterate_available_actions s ct) none none lo none
          (Or.inl ⟨rfl, rfl, rfl⟩)
      · have hd : decide (nextActorOf g ct cause = ct) = false :=
          decide_eq_false hna
        rw [hd]
        exact loopFS_min g (nextActorOf g ct cause) ct hna
          (construct_best_game_tree_alpha_beta g ct d)
          (fun a => mmValue g ct d (some a) (g.translate_state s a)) s cause lo hi
          HF (g.iterate_available_actions s (nextActorOf g ct cause)) none none hi
          none (Or.inl ⟨rfl, rfl, rfl⟩)

theorem rootLoopEq [LinearOrder P] (g : Game S A P) (ct : Actor) (d : Nat)
    (hb : ∀ (act : Actor) (st : S), g.min_value ≤ g.evaluate_payoff_for act st ∧
      g.evaluate_payoff_for act st ≤ g.max_value) (s : S) :
    ∀ (acts : List A) (e : Option P) (cA cB : Option (TreeNode S A P)) (L : P)
      (cause : Option A),
      ((e = none ∧ L = g.min_value) ∨ (∃ a0, e = some a0 ∧ L = a0)) →
      (cA = none ↔ cB = none) →
      (∀ x y, cA = some x → cB = some y → x.cause_action = y.cause_action) →
      ((abLoop g (construct_best_game_tree_alpha_beta g ct d) ct ct
          (TreeNode.mk s cause e cA) ⟨L, g.max_value⟩ acts).payoff =
        (mmLoop g (construct_best_game_tree_full g ct d) ct ct
          (TreeNode.mk s cause e cB) acts).payoff) ∧
      ((abLoop g (construct_best_game_tree_alpha_beta g ct d) ct ct
          (TreeNode.mk s cause e cA) ⟨L, g.max_value⟩ acts).child = none ↔
        (mmLoop g (construct_best_game_tree_full g ct d) ct ct
          (TreeNode.mk s cause e cB) acts).child = none) ∧
      (∀ x y, (abLoop g (construct_best_game_tree_alpha_beta g ct d) ct ct
          (TreeNode.mk s cause e cA) ⟨L, g.max_value⟩ acts).child = some x →
        (mmLoop g (construct_best_game_tree_full g ct d) ct ct
          (TreeNode.mk s cause e cB) acts).child = some y →
        x.cause_action = y.cause_action) := by
  intro acts
  induction acts with
  | nil =>
    intro e cA cB L cause _ hiff hcc
    exact ⟨rfl, hiff, hcc⟩
  | cons a rest ih =>
    intro e cA cB L cause hInv hiff hcc
    have hBp : (construct_best_game_tree_full g ct d
        (TreeNode.mk (g.translate_state s a) (some a) none none)).payoff =
        mmValue g ct d (some a) (g.translate_state s a) :=
      cbgtFull_payoff g ct d (some a) (g.translate_state s a)
    have hFS := failSoft g ct d (some a) (g.translate_state s a) L g.max_value
    cases hmt : mmValue g ct d (some a) (g.translate_state s a) with
    | none =>
      have hA : (construct_best_game_tree_alpha_beta g ct d
          (TreeNode.mk (g.translate_state s a) (some a) none none)
          ⟨L, g.max_value⟩).payoff = none := (hFS.1).mpr hmt
      have hB : (construct_best_game_tree_full g ct d
          (TreeNode.mk (g.translate_state s a) (some a) none none)).payoff =
          none := by rw [hBp, hmt]
      have stepA : abLoop g (construct_best_game_tree_alpha_beta g ct d) ct ct
          (TreeNode.mk s cause e cA) ⟨L, g.max_value⟩ (a :: rest) =
          abLoop g (construct_best_game_tree_alpha_beta g ct d) ct ct
            (TreeNode.mk s cause e cA) ⟨L, g.max_value⟩ rest := by
        simp [abLoop, hA]
      have stepB : mmLoop g (construct_best_game_tree_full g ct d) ct ct
          (TreeNode.mk s cause e cB) (a :: rest) =
          mmLoop g (construct_best_game_tree_full g ct d) ct ct
            (TreeNode.mk s cause e cB) rest := by
        simp [mmLoop, hB]
      rw [stepA, stepB]
      exact ih e cA cB L cause hInv hiff hcc
    | some t =>
      have ht_bounds := mmValue_bounds g ct hb d (some a) (g.translate_state s a)
        t hmt
      have hB : (construct_best_game_tree_full g ct d
          (TreeNode.mk (g.translate_state s a) (some a) none none)).payoff =
          some t := by rw [hBp, hmt]
      obtain ⟨v, hA⟩ : ∃ v, (construct_best_game_tree_alpha_beta g ct d
          (TreeNode.mk (g.translate_state s a) (some a) none none)
          ⟨L, g.max_value⟩).payoff = some v := by
        cases hA : (construct_best_game_tree_alpha_beta g ct d
            (TreeNode.mk (g.translate_state s a) (some a) none none)
            ⟨L, g.max_value⟩).payoff
        · exact absurd ((hFS.1).mp hA) (by simp [hmt])
        · exact ⟨_, rfl⟩
      have hbnd := hFS.2 v t hA hmt
      have htv : t ≤ v := by
        have h := hbnd.1
        rwa [min_eq_left ht_bounds.2] at h
      rcases hInv with ⟨he, hL⟩ | ⟨a0, he, hL⟩
      · subst he; subst hL
        have hvt : v = t := by
          have h := hbnd.2
          rw [max_eq_left ht_bounds.1] at h
          exact le_antisymm h htv
        rw [hvt] at hA
        have stepA : abLoop g (construct_best_game_tree_alpha_beta g ct d) ct ct
            (TreeNode.mk s cause none cA) ⟨g.min_value, g.max_value⟩ (a :: rest) =
            abLoop g (construct_best_game_tree_alpha_beta g ct d) ct ct
              (TreeNode.mk s cause (some t)
                (some (construct_best_game_tree_alpha_beta g ct d
                  (TreeNode.mk (g.translate_state s a) (some a) none none)
                  ⟨g.min_value, g.max_value⟩))) ⟨t, g.max_value⟩ rest := by
          simp [abLoop, hA, Range.try_new, ht_bounds.2]
        have stepB : mmLoop g (construct_best_game_tree_full g ct d) ct ct
            (TreeNode.mk s cause none cB) (a :: rest) =
            mmLoop g (construct_best_game_tree_full g ct d) ct ct
              (TreeNode.mk s cause (some t)
                (some (construct_best_game_tree_full g ct d
                  (TreeNode.mk (g.translate_state s a) (some a) none none))))
              rest := by
          simp [mmLoop, hB]
        rw [stepA, stepB]
        refine ih (some t) _ _ t cause (Or.inr ⟨t, rfl, rfl⟩) (by simp) ?_
        intro x y hx hy
        injection hx with hx
        injection hy with hy
        subst hx; subst hy
        rw [cbgt_cause, cbgtFull_cause]
      · subst he
        have hL2 := hL.symm
        subst hL2
        by_cases hsk : v ≤ a0
        · have htsk : t ≤ a0 := le_trans htv hsk
          have stepA : abLoop g (construct_best_game_tree_alpha_beta g ct d) ct ct
              (TreeNode.mk s cause (some a0) cA) ⟨a0, g.max_value⟩ (a :: rest) =
              abLoop g (construct_best_game_tree_alpha_beta g ct d) ct ct
                (TreeNode.mk s cause (some a0) cA) ⟨a0, g.max_value⟩ rest := by
            simp [abLoop, hA, hsk]
          have stepB : mmLoop g (construct_best_game_tree_full g ct d) ct ct
              (TreeNode.mk s cause (some a0) cB) (a :: rest) =
              mmLoop g (construct_best_game_tree_full g ct d) ct ct
                (TreeNode.mk s cause (some a0) cB) rest := by
            simp [mmLoop, hB, htsk]
          rw [stepA, stepB]
          exact ih (some a0) cA cB a0 cause (Or.inr ⟨a0, rfl, rfl⟩) hiff hcc
        · have hvt : v = t := by
            rcases le_max_iff.mp hbnd.2 with h | h
            · exact le_antisymm h htv
            · exact absurd h hsk
          rw [hvt] at hA
          rw [hvt] at hsk
          have stepA : abLoop g (construct_best_game_tree_alpha_beta g ct d) ct ct
              (TreeNode.mk s cause (some a0) cA) ⟨a0, g.max_value⟩ (a :: rest) =
              abLoop g (construct_best_game_tree_alpha_beta g ct d) ct ct
                (TreeNode.mk s cause (some t)
                  (some (construct_best_game_tree_alpha_beta g ct d
                    (TreeNode.mk (g.translate_state s a) (some a) none none)
                    ⟨a0, g.max_value⟩))) ⟨t, g.max_value⟩ rest := by
            simp [abLoop, hA, hsk, Range.try_new, ht_bounds.2]
          have stepB : mmLoop g (construct_best_game_tree_full g ct d) ct ct
              (TreeNode.mk s cause (some a0) cB) (a :: rest) =
              mmLoop g (construct_best_game_tree_full g ct d) ct ct
                (TreeNode.mk s cause (some t)
                  (some (construct_best_game_tree_full g ct d
                    (TreeNode.mk (g.translate_state s a) (some a) none none))))
                rest := by
            simp [mmLoop, hB, hsk]
          rw [stepA, stepB]
          refine ih (some t) _ _ t cause (Or.inr ⟨t, rfl, rfl⟩) (by simp) ?_
          intro x y hx hy
          injection hx with hx
          injection hy with hy
          subst hx; subst hy
          rw [cbgt_cause, cbgtFull_cause]

/-- C3: for every game with the evaluator inside the `Bounded` payoff range
(automatic for the Rust trait), every search depth, position and actor, the
action selected by the alpha-beta engine equals the action selected by the
brute-force full-width minimax with the same first-found tie-break. -/
theorem c3_alpha_beta_equals_full_minimax [LinearOrder P] (g : Game S A P)
    (hb : ∀ (act : Actor) (st : S), g.min_value ≤ g.evaluate_payoff_for act st ∧
      g.evaluate_payoff_for act st ≤ g.max_value)
    (d : Nat) (s : S) (actor : Actor) :
    select_action g d s actor = select_action_full g d s actor := by
  cases d with
  | zero =>
    simp [select_action, select_action_full, construct_best_game_tree_alpha_beta,
      construct_best_game_tree_full, leafEval]
  | succ d =>
    cases hgo : g.is_game_over s with
    | true =>
      simp [select_action, select_action_full, construct_best_game_tree_alpha_beta,
        construct_best_game_tree_full, leafEval, hgo]
    | false =>
      simp only [select_action, select_action_full]
      rw [cbgt_root_loop g actor d s _ hgo]
      have hfull : construct_best_game_tree_full g actor (d + 1)
          (TreeNode.mk s none none none) =
          mmLoop g (construct_best_game_tree_full g actor d) actor actor
            (TreeNode.mk s none none none)
            (g.iterate_available_actions s actor) := by
        simp [construct_best_game_tree_full, hgo, nextActorOf]
      rw [hfull]
      obtain ⟨hpay, hciff, hcc⟩ := rootLoopEq g actor d hb s
        (g.iterate_available_actions s actor) none none none g.min_value none
        (Or.inl ⟨rfl, rfl⟩) (by simp) (fun x y hx hy => by simp at hx)
      cases hp : (mmLoop g (construct_best_game_tree_full g actor d) actor actor
          (TreeNode.mk s none none none)
          (g.iterate_available_actions s actor)).payoff with
      | none => rw [hpay, hp]; rfl
      | some p =>
        cases hcA : (abLoop g (construct_best_game_tree_alpha_beta g actor d)
            actor actor (TreeNode.mk s none none none)
            ⟨g.min_value, g.max_value⟩
            (g.iterate_available_actions s actor)).child with
        | none =>
          have hcB := hciff.mp hcA
          rw [hpay, hp]
          simp [hcA, hcB]
        | some x =>
          obtain ⟨y, hcB⟩ : ∃ y, (mmLoop g (construct_best_game_tree_full g actor
              d) actor actor (TreeNode.mk s none none none)
              (g.iterate_available_actions s actor)).child = some y := by
            cases hcB : (mmLoop g (construct_best_game_tree_full g actor d) actor
                actor (TreeNode.mk s none none none)
                (g.iterate_available_actions s actor)).child
            · exact absurd (hciff.mpr hcB) (by simp [hcA])
            · exact ⟨_, rfl⟩
          have hxy := hcc x y hcA hcB
          rw [hpay, hp]
          simp [hcA, hcB, hxy]

theorem c3_witness :
    (∀ (act : Actor) (st : Fin 3),
      gTiny.min_value ≤ gTiny.evaluate_payoff_for act st ∧
        gTiny.evaluate_payoff_for act st ≤ gTiny.max_value) ∧
    select_action gTiny 2 0 Actor.First = select_action_full gTiny 2 0 Actor.First :=
  ⟨by decide, c3_alpha_beta_equals_full_minimax gTiny (by decide) 2 0 Actor.First⟩

theorem Actor.eq_opponent_of_ne {a b : Actor} (h : a ≠ b) : a = b.opponent := by
  cases a <;> cases b <;> first | rfl | exact absurd rfl h

theorem Actor.opponent_ne (a : Actor) : a.opponent ≠ a := by
  cases a <;> exact fun h => Actor.noConfusion h

theorem Actor.opponent_eq_of_ne {a b : Actor} (h : a ≠ b) : a.opponent = b := by
  cases a <;> cases b <;> first | rfl | exact absurd rfl h

theorem negMap_le_negMap_iff [LinearOrder P] {neg : P → P}
    (hinv : ∀ x, neg (neg x) = x) (hanti : ∀ x y, x ≤ y → neg y ≤ neg x)
    (x y : P) : neg x ≤ neg y ↔ y ≤ x := by
  constructor
  · intro h
    have h2 := hanti _ _ h
    rwa [hinv, hinv] at h2
  · exact fun h => hanti y x h

theorem nmLoop_max [LinearOrder P] (g : Game S A P) (neg : P → P) (ct : Actor)
    (hinv : ∀ x, neg (neg x) = x)
    (recm : TreeNode S A P → Range P → TreeNode S A P)
    (recn : Option A → S → P → P → Option (P × Option A))
    (s : S) (cause : Option A) (hi0 : P)
    (Hrecm : ∀ n r, (recm n r).cause_action = n.cause_action) :
    ∀ (acts : List A),
      (∀ a ∈ acts, ∀ (lo hi : P),
        recn (some a) (g.translate_state s a) (neg hi) (neg lo) =
          ((recm (TreeNode.mk (g.translate_state s a) (some a) none none)
            ⟨lo, hi⟩).payoff).map
            (fun v => (neg v,
              ((recm (TreeNode.mk (g.translate_state s a) (some a) none none)
                ⟨lo, hi⟩).child).bind TreeNode.cause_action))) →
      ∀ (e : Option P) (c : Option (TreeNode S A P)) (curL : P),
        negaLoop g neg recn s hi0
          (e.map fun v => (v, c.bind TreeNode.cause_action)) curL acts =
        ((abLoop g recm ct ct (TreeNode.mk s cause e c) ⟨curL, hi0⟩
            acts).payoff).map
          (fun v => (v,
            ((abLoop g recm ct ct (TreeNode.mk s cause e c) ⟨curL, hi0⟩
              acts).child).bind TreeNode.cause_action)) := by
  intro acts
  induction acts with
  | nil =>
    intro _ e c curL
    cases e <;> rfl
  | cons a rest ih =>
    intro HIC e c curL
    have hic := HIC a (List.mem_cons_self a rest) curL hi0
    have HICr := fun b hb => HIC b (List.mem_cons_of_mem a hb)
    have hcc : (recm (TreeNode.mk (g.translate_state s a) (some a) none none)
        ⟨curL, hi0⟩).cause_action = some a := by rw [Hrecm]; rfl
    cases hcp : (recm (TreeNode.mk (g.translate_state s a) (some a) none none)
        ⟨curL, hi0⟩).payoff with
    | none =>
      have hrec : recn (some a) (g.translate_state s a) (neg hi0) (neg curL)
          = none := by simp [hic, hcp]
      have stepN : negaLoop g neg recn s hi0
          (e.map fun v => (v, c.bind TreeNode.cause_action)) curL (a :: rest) =
          negaLoop g neg recn s hi0
            (e.map fun v => (v, c.bind TreeNode.cause_action)) curL rest := by
        simp [negaLoop, hrec]
      have stepM : abLoop g recm ct ct (TreeNode.mk s cause e c) ⟨curL, hi0⟩
          (a :: rest) =
          abLoop g recm ct ct (TreeNode.mk s cause e c) ⟨curL, hi0⟩ rest := by
        simp [abLoop, hcp]
      rw [stepN, stepM]
      exact ih HICr e c curL
    | some v =>
      have hrec : recn (some a) (g.translate_state s a) (neg hi0) (neg curL) =
          some (neg v, ((recm (TreeNode.mk (g.translate_state s a) (some a) none
            none) ⟨curL, hi0⟩).child).bind TreeNode.cause_action) := by
        simp [hic, hcp]
      cases e with
      | none =>
        by_cases hvH : v ≤ hi0
        · have stepN : negaLoop g neg recn s hi0
              ((none : Option P).map fun v => (v, c.bind TreeNode.cause_action))
              curL (a :: rest) =
              negaLoop g neg recn s hi0 (some (v, some a)) v rest := by
            simp [negaLoop, hrec, hinv, Range.try_new, hvH]
          have stepM : abLoop g recm ct ct (TreeNode.mk s cause none c)
              ⟨curL, hi0⟩ (a :: rest) =
              abLoop g recm ct ct (TreeNode.mk s cause (some v)
                (some (recm (TreeNode.mk (g.translate_state s a) (some a) none
                  none) ⟨curL, hi0⟩))) ⟨v, hi0⟩ rest := by
            simp [abLoop, hcp, Range.try_new, hvH]
          rw [stepN, stepM]
          have hmain := ih HICr (some v)
            (some (recm (TreeNode.mk (g.translate_state s a) (some a) none none)
              ⟨curL, hi0⟩)) v
          simpa [hcc] using hmain
        · have stepN : negaLoop g neg recn s hi0
              ((none : Option P).map fun v => (v, c.bind TreeNode.cause_action))
              curL (a :: rest) = some (v, some a) := by
            simp [negaLoop, hrec, hinv, Range.try_new, hvH]
          have stepM1 : (abLoop g recm ct ct (TreeNode.mk s cause none c)
              ⟨curL, hi0⟩ (a :: rest)).payoff = some v := by
            simp [abLoop, hcp, Range.try_new, hvH]
          have stepM2 : (abLoop g recm ct ct (TreeNode.mk s cause none c)
              ⟨curL, hi0⟩ (a :: rest)).child =
              some (recm (TreeNode.mk (g.translate_state s a) (some a) none none)
                ⟨curL, hi0⟩) := by
            simp [abLoop, hcp, Range.try_new, hvH]
          rw [stepN, stepM1, stepM2]
          simp [hcc]
      | some e0 =>
        by_cases hsk : v ≤ e0
        · have stepN : negaLoop g neg recn s hi0
              ((some e0).map fun v => (v, c.bind TreeNode.cause_action)) curL
              (a :: rest) =
              negaLoop g neg recn s hi0
                ((some e0).map fun v => (v, c.bind TreeNode.cause_action)) curL
                rest := by
            simp [negaLoop, hrec, hinv, hsk]
          have stepM : abLoop g recm ct ct (TreeNode.mk s cause (some e0) c)
              ⟨curL, hi0⟩ (a :: rest) =
              abLoop g recm ct ct (TreeNode.mk s cause (some e0) c) ⟨curL, hi0⟩
                rest := by
            simp [abLoop, hcp, hsk]
          rw [stepN, stepM]
          exact ih HICr (some e0) c curL
        · by_cases hvH : v ≤ hi0
          · have stepN : negaLoop g neg recn s hi0
                ((some e0).map fun v => (v, c.bind TreeNode.cause_action)) curL
                (a :: rest) =
                negaLoop g neg recn s hi0 (some (v, some a)) v rest := by
              simp [negaLoop, hrec, hinv, hsk, Range.try_new, hvH]
            have stepM : abLoop g recm ct ct (TreeNode.mk s cause (some e0) c)
                ⟨curL, hi0⟩ (a :: rest) =
                abLoop g recm ct ct (TreeNode.mk s cause (some v)
                  (some (recm (TreeNode.mk (g.translate_state s a) (some a) none
                    none) ⟨curL, hi0⟩))) ⟨v, hi0⟩ rest := by
              simp [abLoop, hcp, hsk, Range.try_new, hvH]
            rw [stepN, stepM]
            have hmain := ih HICr (some v)
              (some (recm (TreeNode.mk (g.translate_state s a) (some a) none
                none) ⟨curL, hi0⟩)) v
            simpa [hcc] using hmain
          · have stepN : negaLoop g neg recn s hi0
                ((some e0).map fun v => (v, c.bind TreeNode.cause_action)) curL
                (a :: rest) = some (v, some a) := by
              simp [negaLoop, hrec, hinv, hsk, Range.try_new, hvH]
            have stepM1 : (abLoop g recm ct ct (TreeNode.mk s cause (some e0) c)
                ⟨curL, hi0⟩ (a :: rest)).payoff = some v := by
              simp [abLoop, hcp, hsk, Range.try_new, hvH]
            have stepM2 : (abLoop g recm ct ct (TreeNode.mk s cause (some e0) c)
                ⟨curL, hi0⟩ (a :: rest)).child =
                some (recm (TreeNode.mk (g.translate_state s a) (some a) none
                  none) ⟨curL, hi0⟩) := by
              simp [abLoop, hcp, hsk, Range.try_new, hvH]
            rw [stepN, stepM1, stepM2]
            simp [hcc]

theorem nmLoop_min [LinearOrder P] (g : Game S A P) (neg : P → P)
    (ct na : Actor) (hne : na ≠ ct)
    (hinv : ∀ x, neg (neg x) = x)
    (hanti : ∀ x y, x ≤ y → neg y ≤ neg x)
    (recm : TreeNode S A P → Range P → TreeNode S A P)
    (recn : Option A → S → P → P → Option (P × Option A))
    (s : S) (cause : Option A) (lo0 : P)
    (Hrecm : ∀ n r, (recm n r).cause_action = n.cause_action) :
    ∀ (acts : List A),
      (∀ a ∈ acts, ∀ (lo hi : P),
        recn (some a) (g.translate_state s a) lo hi =
          ((recm (TreeNode.mk (g.translate_state s a) (some a) none none)
            ⟨lo, hi⟩).payoff).map
            (fun v => (v,
              ((recm (TreeNode.mk (g.translate_state s a) (some a) none none)
                ⟨lo, hi⟩).child).bind TreeNode.cause_action))) →
      ∀ (e : Option P) (c : Option (TreeNode S A P)) (curH : P),
        negaLoop g neg recn s (neg lo0)
          (e.map fun v => (neg v, c.bind TreeNode.cause_action)) (neg curH)
          acts =
        ((abLoop g recm na ct (TreeNode.mk s cause e c) ⟨lo0, curH⟩
            acts).payoff).map
          (fun v => (neg v,
            ((abLoop g recm na ct (TreeNode.mk s cause e c) ⟨lo0, curH⟩
              acts).child).bind TreeNode.cause_action)) := by
  intro acts
  induction acts with
  | nil =>
    intro _ e c curH
    cases e <;> rfl
  | cons a rest ih =>
    intro HIC e c curH
    have hic := HIC a (List.mem_cons_self a rest)
    have HICr := fun b hb => HIC b (List.mem_cons_of_mem a hb)
    have hcc : (recm (TreeNode.mk (g.translate_state s a) (some a) none none)
        ⟨lo0, curH⟩).cause_action = some a := by rw [Hrecm]; rfl
    have hrec0 : recn (some a) (g.translate_state s a) (neg (neg lo0))
        (neg (neg curH)) =
        ((recm (TreeNode.mk (g.translate_state s a) (some a) none none)
          ⟨lo0, curH⟩).payoff).map
          (fun v => (v,
            ((recm (TreeNode.mk (g.translate_state s a) (some a) none none)
              ⟨lo0, curH⟩).child).bind TreeNode.cause_action)) := by
      rw [hinv lo0, hinv curH]; exact hic lo0 curH
    cases hcp : (recm (TreeNode.mk (g.translate_state s a) (some a) none none)
        ⟨lo0, curH⟩).payoff with
    | none =>
      have hrec : recn (some a) (g.translate_state s a) (neg (neg lo0))
          (neg (neg curH)) = none := by simp [hrec0, hcp]
      have stepN : negaLoop g neg recn s (neg lo0)
          (e.map fun v => (neg v, c.bind TreeNode.cause_action)) (neg curH)
          (a :: rest) =
          negaLoop g neg recn s (neg lo0)
            (e.map fun v => (neg v, c.bind TreeNode.cause_action)) (neg curH)
            rest := by
        simp [negaLoop, hrec]
      have stepM : abLoop g recm na ct (TreeNode.mk s cause e c) ⟨lo0, curH⟩
          (a :: rest) =
          abLoop g recm na ct (TreeNode.mk s cause e c) ⟨lo0, curH⟩ rest := by
        simp [abLoop, hcp]
      rw [stepN, stepM]
      exact ih HICr e c curH
    | some v =>
      have hrec : recn (some a) (g.translate_state s a) (neg (neg lo0))
          (neg (neg curH)) =
          some (v, ((recm (TreeNode.mk (g.translate_state s a) (some a) none
            none) ⟨lo0, curH⟩).child).bind TreeNode.cause_action) := by
        simp [hrec0, hcp]
      have haccIff : neg v ≤ neg lo0 ↔ lo0 ≤ v :=
        negMap_le_negMap_iff hinv hanti v lo0
      cases e with
      | none =>
        by_cases hacc : lo0 ≤ v
        · have haccN : neg v ≤ neg lo0 := haccIff.mpr hacc
          have stepN : negaLoop g neg recn s (neg lo0)
              ((none : Option P).map fun v => (neg v, c.bind
                TreeNode.cause_action)) (neg curH) (a :: rest) =
              negaLoop g neg recn s (neg lo0) (some (neg v, some a)) (neg v)
                rest := by
            simp [negaLoop, hrec, Range.try_new, haccN]
          have stepM : abLoop g recm na ct (TreeNode.mk s cause none c)
              ⟨lo0, curH⟩ (a :: rest) =
              abLoop g recm na ct (TreeNode.mk s cause (some v)
                (some (recm (TreeNode.mk (g.translate_state s a) (some a) none
                  none) ⟨lo0, curH⟩))) ⟨lo0, v⟩ rest := by
            simp [abLoop, hcp, hne, Range.try_new, hacc]
          rw [stepN, stepM]
          have hmain := ih HICr (some v)
            (some (recm (TreeNode.mk (g.translate_state s a) (some a) none none)
              ⟨lo0, curH⟩)) v
          simpa [hcc] using hmain
        · have haccN : ¬ neg v ≤ neg lo0 := fun h => hacc (haccIff.mp h)
          have stepN : negaLoop g neg recn s (neg lo0)
              ((none : Option P).map fun v => (neg v, c.bind
                TreeNode.cause_action)) (neg curH) (a :: rest) =
              some (neg v, some a) := by
            simp [negaLoop, hrec, Range.try_new, haccN]
          have stepM1 : (abLoop g recm na ct (TreeNode.mk s cause none c)
              ⟨lo0, curH⟩ (a :: rest)).payoff = some v := by
            simp [abLoop, hcp, hne, Range.try_new, hacc]
          have stepM2 : (abLoop g recm na ct (TreeNode.mk s cause none c)
              ⟨lo0, curH⟩ (a :: rest)).child =
              some (recm (TreeNode.mk (g.translate_state s a) (some a) none
                none) ⟨lo0, curH⟩) := by
            simp [abLoop, hcp, hne, Range.try_new, hacc]
          rw [stepN, stepM1, stepM2]
          simp [hcc]
      | some e0 =>
        have hskipEq : decide (neg v ≤ neg e0) = decide (e0 ≤ v) :=
          decide_eq_decide.mpr (negMap_le_negMap_iff hinv hanti v e0)
        by_cases hsk : e0 ≤ v
        · have hskN : neg v ≤ neg e0 := (negMap_le_negMap_iff hinv hanti v
            e0).mpr hsk
          have stepN : negaLoop g neg recn s (neg lo0)
              ((some e0).map fun v => (neg v, c.bind TreeNode.cause_action))
              (neg curH) (a :: rest) =
              negaLoop g neg recn s (neg lo0)
                ((some e0).map fun v => (neg v, c.bind TreeNode.cause_action))
                (neg curH) rest := by
            simp [negaLoop, hrec, hskN]
          have stepM : abLoop g recm na ct (TreeNode.mk s cause (some e0) c)
              ⟨lo0, curH⟩ (a :: rest) =
              abLoop g recm na ct (TreeNode.mk s cause (some e0) c) ⟨lo0, curH⟩
                rest := by
            simp [abLoop, hcp, hne, hsk]
          rw [stepN, stepM]
          exact ih HICr (some e0) c curH
        · have hskN : ¬ neg v ≤ neg e0 := fun h =>
            hsk ((negMap_le_negMap_iff hinv hanti v e0).mp h)
          by_cases hacc : lo0 ≤ v
          · have haccN : neg v ≤ neg lo0 := haccIff.mpr hacc
            have stepN : negaLoop g neg recn s (neg lo0)
                ((some e0).map fun v => (neg v, c.bind TreeNode.cause_action))
                (neg curH) (a :: rest) =
                negaLoop g neg recn s (neg lo0) (some (neg v, some a)) (neg v)
                  rest := by
              simp [negaLoop, hrec, hskN, Range.try_new, haccN]
            have stepM : abLoop g recm na ct (TreeNode.mk s cause (some e0) c)
                ⟨lo0, curH⟩ (a :: rest) =
                abLoop g recm na ct (TreeNode.mk s cause (some v)
                  (some (recm (TreeNode.mk (g.translate_state s a) (some a)
                    none none) ⟨lo0, curH⟩))) ⟨lo0, v⟩ rest := by
              simp [abLoop, hcp, hne, hsk, Range.try_new, hacc]
            rw [stepN, stepM]
            have hmain := ih HICr (some v)
              (some (recm (TreeNode.mk (g.translate_state s a) (some a) none
                none) ⟨lo0, curH⟩)) v
            simpa [hcc] using hmain
          · have haccN : ¬ neg v ≤ neg lo0 := fun h => hacc (haccIff.mp h)
            have stepN : negaLoop g neg recn s (neg lo0)
                ((some e0).map fun v => (neg v, c.bind TreeNode.cause_action))
                (neg curH) (a :: rest) = some (neg v, some a) := by
              simp [negaLoop, hrec, hskN, Range.try_new, haccN]
            have stepM1 : (abLoop g recm na ct (TreeNode.mk s cause (some e0)
                c) ⟨lo0, curH⟩ (a :: rest)).payoff = some v := by
              simp [abLoop, hcp, hne, hsk, Range.try_new, hacc]
            have stepM2 : (abLoop g recm na ct (TreeNode.mk s cause (some e0)
                c) ⟨lo0, curH⟩ (a :: rest)).child =
                some (recm (TreeNode.mk (g.translate_state s a) (some a) none
                  none) ⟨lo0, curH⟩) := by
              simp [abLoop, hcp, hne, hsk, Range.try_new, hacc]
            rw [stepN, stepM1, stepM2]
            simp [hcc]

theorem Actor.opponent_opponent (a : Actor) : a.opponent.opponent = a := by
  cases a <;> rfl

theorem negamax_eq_alpha_beta_aux [LinearOrder P] (g : Game S A P) (neg : P → P)
    (ct : Actor)
    (hinv : ∀ x, neg (neg x) = x)
    (hanti : ∀ x y, x ≤ y → neg y ≤ neg x)
    (hzs : ∀ (a : Actor) (st : S),
      g.evaluate_payoff_for a.opponent st = neg (g.evaluate_payoff_for a st))
    (htag : ∀ (st : S) (t : Actor) (a : A),
      a ∈ g.iterate_available_actions st t → g.actor_of a = t) :
    ∀ (d : Nat) (cause : Option A) (s : S) (lo hi : P),
      (nextActorOf g ct cause = ct →
        negamax g neg ct d cause s lo hi =
          ((construct_best_game_tree_alpha_beta g ct d
              (TreeNode.mk s cause none none) ⟨lo, hi⟩).payoff).map
            (fun v => (v,
              ((construct_best_game_tree_alpha_beta g ct d
                (TreeNode.mk s cause none none) ⟨lo, hi⟩).child).bind
                TreeNode.cause_action))) ∧
      (nextActorOf g ct cause ≠ ct →
        negamax g neg ct d cause s (neg hi) (neg lo) =
          ((construct_best_game_tree_alpha_beta g ct d
              (TreeNode.mk s cause none none) ⟨lo, hi⟩).payoff).map
            (fun v => (neg v,
              ((construct_best_game_tree_alpha_beta g ct d
                (TreeNode.mk s cause none none) ⟨lo, hi⟩).child).bind
                TreeNode.cause_action))) := by
  intro d
  induction d with
  | zero =>
    intro cause s lo hi
    constructor
    · intro h
      simp [negamax, construct_best_game_tree_alpha_beta, leafEval, h]
    · intro h
      have htm : nextActorOf g ct cause = ct.opponent :=
        Actor.eq_opponent_of_ne h
      simp [negamax, construct_best_game_tree_alpha_beta, leafEval, htm, hzs]
  | succ d ih =>
    intro cause s lo hi
    by_cases hgo : g.is_game_over s
    · constructor
      · intro h
        simp [negamax, construct_best_game_tree_alpha_beta, leafEval, hgo, h]
      · intro h
        have htm : nextActorOf g ct cause = ct.opponent :=
          Actor.eq_opponent_of_ne h
        simp [negamax, construct_best_game_tree_alpha_beta, leafEval, hgo,
          htm, hzs]
    · constructor
      · intro h
        have HIC : ∀ a ∈ g.iterate_available_actions s ct, ∀ (lo' hi' : P),
            negamax g neg ct d (some a) (g.translate_state s a) (neg hi')
              (neg lo') =
            ((construct_best_game_tree_alpha_beta g ct d
                (TreeNode.mk (g.translate_state s a) (some a) none none)
                ⟨lo', hi'⟩).payoff).map
              (fun v => (neg v,
                ((construct_best_game_tree_alpha_beta g ct d
                  (TreeNode.mk (g.translate_state s a) (some a) none none)
                  ⟨lo', hi'⟩).child).bind TreeNode.cause_action)) := by
          intro a ha lo' hi'
          have hact := htag s ct a ha
          have hne' : nextActorOf g ct (some a) ≠ ct := by
            simp only [nextActorOf, hact]
            exact Actor.opponent_ne ct
          exact (ih (some a) (g.translate_state s a) lo' hi').2 hne'
        have key := nmLoop_max g neg ct hinv
          (construct_best_game_tree_alpha_beta g ct d) (negamax g neg ct d)
          s cause hi (cbgt_cause g ct d)
          (g.iterate_available_actions s ct) HIC none none lo
        simp only [negamax, construct_best_game_tree_alpha_beta]
        rw [if_neg hgo]
        have hnode : ¬ g.is_game_over (TreeNode.mk s cause
            (none : Option P) (none : Option (TreeNode S A P))).state := hgo
        rw [if_neg hnode]
        simp only [TreeNode.cause_action, TreeNode.state, h]
        simpa using key
      · intro h
        have htm : nextActorOf g ct cause = ct.opponent :=
          Actor.eq_opponent_of_ne h
        have HIC : ∀ a ∈ g.iterate_available_actions s ct.opponent,
            ∀ (lo' hi' : P),
            negamax g neg ct d (some a) (g.translate_state s a) lo' hi' =
            ((construct_best_game_tree_alpha_beta g ct d
                (TreeNode.mk (g.translate_state s a) (some a) none none)
                ⟨lo', hi'⟩).payoff).map
              (fun v => (v,
                ((construct_best_game_tree_alpha_beta g ct d
                  (TreeNode.mk (g.translate_state s a) (some a) none none)
                  ⟨lo', hi'⟩).child).bind TreeNode.cause_action)) := by
          intro a ha lo' hi'
          have hact := htag s ct.opponent a ha
          have heq : nextActorOf g ct (some a) = ct := by
            simp only [nextActorOf, hact]
            exact Actor.opponent_opponent ct
          exact (ih (some a) (g.translate_state s a) lo' hi').1 heq
        have key := nmLoop_min g neg ct ct.opponent (Actor.opponent_ne ct)
          hinv hanti (construct_best_game_tree_alpha_beta g ct d)
          (negamax g neg ct d) s cause lo (cbgt_cause g ct d)
          (g.iterate_available_actions s ct.opponent) HIC none none hi
        simp only [negamax, construct_best_game_tree_alpha_beta]
        rw [if_neg hgo]
        have hnode : ¬ g.is_game_over (TreeNode.mk s cause
            (none : Option P) (none : Option (TreeNode S A P))).state := hgo
        rw [if_neg hnode]
        simp only [TreeNode.cause_action, TreeNode.state, htm]
        simpa using key

/-- C8: whenever `negate` is an order-reversing involution and the evaluator
satisfies the zero-sum law `scoreFor(opponent(a), p) = negate(scoreFor(a, p))`
(and actions carry the actor the rules enumerated them for), the negamax
variant of section 4.5 selects exactly the same action as the
minimax-with-alpha-beta engine of section 4.4, for every rule, position, actor
and depth. -/
theorem c8_negamax_equals_minimax [LinearOrder P] (g : Game S A P)
    (neg : P → P)
    (hinv : ∀ x, neg (neg x) = x)
    (hanti : ∀ x y, x ≤ y → neg y ≤ neg x)
    (hzs : ∀ (a : Actor) (st : S),
      g.evaluate_payoff_for a.opponent st = neg (g.evaluate_payoff_for a st))
    (htag : ∀ (st : S) (t : Actor) (a : A),
      a ∈ g.iterate_available_actions st t → g.actor_of a = t)
    (d : Nat) (s : S) (actor : Actor) :
    select_action_negamax g neg d s actor = select_action g d s actor := by
  have h := (negamax_eq_alpha_beta_aux g neg actor hinv hanti hzs htag d none
    s g.min_value g.max_value).1 rfl
  cases hp : (construct_best_game_tree_alpha_beta g actor d
      (TreeNode.mk s none none none) ⟨g.min_value, g.max_value⟩).payoff with
  | none => simp [select_action_negamax, select_action, h, hp]
  | some v =>
    cases hc : (construct_best_game_tree_alpha_beta g actor d
        (TreeNode.mk s none none none) ⟨g.min_value, g.max_value⟩).child with
    | none => simp [select_action_negamax, select_action, h, hp, hc]
    | some best => simp [select_action_negamax, select_action, h, hp, hc]

theorem c8_witness :
    select_action_negamax gZeroSum (fun x : Int => -x) 1 (0 : Fin 3)
        Actor.First =
      select_action gZeroSum 1 (0 : Fin 3) Actor.First ∧
    select_action gZeroSum 1 (0 : Fin 3) Actor.First =
      some (Actor.First, 1) :=
  ⟨c8_negamax_equals_minimax gZeroSum (fun x : Int => -x)
      (fun x => neg_neg x) (fun _ _ h => neg_le_neg h)
      (by decide) (by decide) 1 0 Actor.First,
    by decide⟩
